import Mathlib

/-!
# practice3: the interactive Bezier editor

A shallow embedding of `src/practice3/main.cpp`: the De Casteljau evaluation
(`bezier`), the tessellation (`calc_bez`), the cumulative distance table
(`calc_dst`), the event handlers of `main`, its startup and the draw calls of a
frame, the dash test and the view transform of the two shaders, and the result
of `create_shader` and `create_program`. Further down: the keyboard handling of
`src/practice2/main.cpp`, the class `mth::matr` of `src/practice4/main.cpp` and
the projection array of `src/practice5/main.cpp`.

Conventions of the embedding.

* C++ `float` is an arbitrary linearly ordered field `α` (exact arithmetic);
  the concrete instances are over `ℚ`, and over `ℝ` where the Euclidean norm
  is needed for `hypot`.
* C++ `int` is `Int`; the embedding agrees with the program as long as no
  signed overflow happens (which the C++ standard leaves undefined).
* `std::vector` is `List`; every indexed read goes through `[i]?`, so a read
  out of bounds (undefined behaviour in C++) makes the enclosing function
  return `none`, and a handler of `main` that meets one has no next state.
* `std::hypot` is a library function; it is a parameter `hypot` of `calc_dst`.
* The GLSL built-in `mod` is `glsl_mod`, over a field with a floor function; a
  fragment of a line gets the linear interpolation of the vertex outputs.
* The answers of the OpenGL driver are parameters of `create_shader` and
  `create_program`; a thrown `std::runtime_error` is `Except.error`.
-/

namespace Practice3

/-- The struct `vec2` of the source: two floats. -/
structure vec2 (α : Type) where
  x : α
  y : α
deriving DecidableEq

/-- The struct `vertex` of the source: a position and four colour bytes. -/
structure vertex (α : Type) where
  position : vec2 α
  color : Nat × Nat × Nat × Nat
deriving DecidableEq

section Definitions

variable {α : Type} [LinearOrderedField α]

/-- Body of the inner loop of `bezier`:
`points[i].x = points[i].x * (1.f - t) + points[i + 1].x * t` and the same for `y`. -/
def bezier_inner (t : α) (points : List (vec2 α)) (i : Nat) : Option (List (vec2 α)) :=
  match points[i]?, points[i + 1]? with
  | some a, some b =>
      some (points.set i ⟨a.x * (1 - t) + b.x * t, a.y * (1 - t) + b.y * t⟩)
  | _, _ => none

/-- Body of the outer loop of `bezier`: the inner loop
`for (i = 0; i + k + 1 < vertices.size(); ++i)`. -/
def bezier_outer (t : α) (n : Nat) (points : List (vec2 α)) (k : Nat) :
    Option (List (vec2 α)) :=
  (List.range (n - (k + 1))).foldlM (bezier_inner t) points

/-- The function `bezier` of the source: copy the positions, run
`for (k = 0; k + 1 < vertices.size(); ++k)` and return `points[0]`.
On an empty `vertices` the read of `points[0]` is out of bounds: `none`. -/
def bezier (vertices : List (vertex α)) (t : α) : Option (vec2 α) :=
  match (List.range (vertices.length - 1)).foldlM (bezier_outer t vertices.length)
      (vertices.map (fun v => v.position)) with
  | some points => points[0]?
  | none => none

/-- Body of the loop of `calc_bez`; the loop state is the pair `(bez, t)`:
`bez.push_back({bezier(pts, t), {255, 0, 0, 1}}); t += 1.f / cnt;`.
When `cnt = 0` the loop runs once, so the `t` updated with `1.f / 0` is never read. -/
def calc_bez_body (cnt : Int) (pts : List (vertex α)) (st : List (vertex α) × α) (_i : Nat) :
    Option (List (vertex α) × α) :=
  match bezier pts st.2 with
  | some p => some (st.1 ++ [⟨p, (255, 0, 0, 1)⟩], st.2 + 1 / (cnt : α))
  | none => none

/-- The loop of `calc_bez` together with the final value of `t`:
`cnt = (static_cast<int>(pts.size()) - 1) * quality` and
`for (int i = 0; i <= cnt; i++)`. -/
def calc_bez_loop (quality : Int) (pts : List (vertex α)) : Option (List (vertex α) × α) :=
  let cnt : Int := ((pts.length : Int) - 1) * quality
  (List.range (cnt + 1).toNat).foldlM (calc_bez_body cnt pts) ([], 0)

/-- The function `calc_bez` of the source; the result is the new content of `bez`
(which the source also uploads to the buffer `vbo`). -/
def calc_bez (quality : Int) (pts : List (vertex α)) : Option (List (vertex α)) :=
  (calc_bez_loop quality pts).map Prod.fst

/-- Body of the loop of `calc_dst`:
`dst.push_back(dst[i - 1] + std::hypot(bez[i - 1].position.x - bez[i].position.x,
bez[i - 1].position.y - bez[i].position.y))`. -/
def calc_dst_body (hypot : α → α → α) (bez : List (vertex α)) (dst : List α) (i : Nat) :
    Option (List α) :=
  match dst[i - 1]?, bez[i - 1]?, bez[i]? with
  | some d, some p, some q =>
      some (dst ++ [d + hypot (p.position.x - q.position.x) (p.position.y - q.position.y)])
  | _, _, _ => none

/-- The function `calc_dst` of the source: `dst.clear(); dst.push_back(0);` and
`for (int i = 1; i < bez.size(); i++)`; the result is the new content of `dst`. -/
def calc_dst (hypot : α → α → α) (bez : List (vertex α)) : Option (List α) :=
  (List.range' 1 (bez.length - 1)).foldlM (calc_dst_body hypot bez) [0]

/-- The editor state held by the local variables of `main`: the host vectors
`pts`, `bez`, `dst`, the `quality`, and the contents of the three device buffers. -/
structure State (α : Type) where
  pts : List (vertex α)
  bez : List (vertex α)
  dst : List α
  quality : Int
  pts_vbo : List (vertex α)
  bez_vbo : List (vertex α)
  dst_vbo : List α

/-- The input events of the loop of `main`. `other` stands for every event that no
branch of the `switch` acts on for the editor (another button or key, a resize). -/
inductive Event where
  | leftClick (x y : Int)
  | rightClick
  | keyLeft
  | keyRight
  | other
deriving DecidableEq

/-- The state of `main` when the frame loop is entered: the three vectors are
empty, the buffers were created from them, and `int quality = 4`. -/
def init : State α :=
  { pts := [], bez := [], dst := [], quality := 4, pts_vbo := [], bez_vbo := [], dst_vbo := [] }

/-- The two calls `calc_bez(bez_vbo, bez, quality, pts); calc_dst(dst_vbo, bez, dst);`
that end every editing branch; each one also uploads its result. -/
def recompute (hypot : α → α → α) (s : State α) : Option (State α) :=
  match calc_bez s.quality s.pts with
  | some bez =>
      match calc_dst hypot bez with
      | some dst => some { s with bez := bez, bez_vbo := bez, dst := dst, dst_vbo := dst }
      | none => none
  | none => none

/-- One event of the `switch` in `main`. -/
def step (hypot : α → α → α) (s : State α) : Event → Option (State α)
  | Event.leftClick x y =>
      let pts := s.pts ++ [⟨⟨(x : α), (y : α)⟩, (47, 7, 102, 1)⟩]
      recompute hypot { s with pts := pts, pts_vbo := pts }
  | Event.rightClick =>
      if s.pts.length > 0 then
        let pts := s.pts.dropLast
        recompute hypot { s with pts := pts, pts_vbo := pts }
      else some s
  | Event.keyLeft => recompute hypot { s with quality := max 0 (s.quality - 1) }
  | Event.keyRight => recompute hypot { s with quality := s.quality + 1 }
  | Event.other => some s

/-- The editor after a sequence of events, starting from `s`. -/
def run (hypot : α → α → α) (s : State α) (evs : List Event) : Option (State α) :=
  evs.foldlM (step hypot) s

/-- The ways in which the loop of `calc_bez` can go wrong: a read out of bounds, a
division by zero. -/
inductive Fault where
  | out_of_bounds
  | division_by_zero
deriving DecidableEq

/-- The float division as the program has it: it yields a value for every divisor. -/
def float_div (a b : α) : Except Fault α :=
  Except.ok (a / b)

/-- The float division that reports a zero divisor instead of yielding a value. -/
def checked_div (a b : α) : Except Fault α :=
  if b = 0 then Except.error Fault.division_by_zero else Except.ok (a / b)

/-- Body of the loop of `calc_bez` with the division of `t += 1.f / cnt` left to `div`:
`bez.push_back({bezier(pts, t), {255, 0, 0, 1}});` and then `t += div(1.f, cnt);`.
With `float_div` this is `calc_bez_body` (`calc_bez_body_eq_div`). -/
def calc_bez_body_div (div : α → α → Except Fault α) (cnt : Int) (pts : List (vertex α))
    (st : List (vertex α) × α) (_i : Nat) : Except Fault (List (vertex α) × α) :=
  match bezier pts st.2 with
  | some p =>
      match div 1 (cnt : α) with
      | Except.ok step => Except.ok (st.1 ++ [⟨p, (255, 0, 0, 1)⟩], st.2 + step)
      | Except.error e => Except.error e
  | none => Except.error Fault.out_of_bounds

/-- The loop of `calc_bez` with the division left to `div`. With `float_div` this is
`calc_bez_loop` (`calc_bez_loop_eq_div`). -/
def calc_bez_loop_div (div : α → α → Except Fault α) (quality : Int)
    (pts : List (vertex α)) : Except Fault (List (vertex α) × α) :=
  let cnt : Int := ((pts.length : Int) - 1) * quality
  (List.range (cnt + 1).toNat).foldlM (calc_bez_body_div div cnt pts) ([], 0)

/-! ### The shaders -/

/-- The GLSL built-in `mod(x, y) = x - y * floor(x / y)`. -/
def glsl_mod [FloorRing α] (x y : α) : α :=
  x - y * ((⌊x / y⌋ : Int) : α)

/-- The output `bez` of the vertex shader: `bez = is_bez;`. -/
def vertex_shader_bez (is_bez : α) : α :=
  is_bez

/-- The output `dist` of the vertex shader: `dist = in_dist + mod(time * 100, 40.0);`. -/
def vertex_shader_dist [FloorRing α] (in_dist time : α) : α :=
  in_dist + glsl_mod (time * 100) 40

/-- The value a fragment of a line receives for an output of the vertex shader: the
linear interpolation of the values `a` and `b` at the two ends, at weight `lam`. -/
def interpolate (lam a b : α) : α :=
  (1 - lam) * a + lam * b

/-- The test of the fragment shader: `if (bez > 0 && mod(dist, 40.0) < 20.0) discard;`. -/
def fragment_shader_discard [FloorRing α] (bez dist : α) : Bool :=
  decide (bez > 0 ∧ glsl_mod dist 40 < 20)

/-! ### Shader compilation and program linking -/

/-- The constant `GL_TRUE` of OpenGL. -/
def GL_TRUE : Int := 1

/-- The function `create_shader` of the source. The answers of the driver are
parameters: `result` is the handle from `glCreateShader`, `status` the value of
`GL_COMPILE_STATUS`, `info_log` the text that `glGetShaderInfoLog` leaves in the
buffer. The `throw std::runtime_error(msg)` is `Except.error msg`. -/
def create_shader (result : Nat) (status : Int) (info_log : String) : Except String Nat :=
  if status ≠ GL_TRUE then
    Except.error ("Shader compilation failed: " ++ info_log)
  else
    Except.ok result

/-- The function `create_program` of the source, with the answers of the driver as
parameters: the handle from `glCreateProgram`, the value of `GL_LINK_STATUS` and the
text that `glGetProgramInfoLog` leaves in the buffer. -/
def create_program (result : Nat) (status : Int) (info_log : String) : Except String Nat :=
  if status ≠ GL_TRUE then
    Except.error ("Program linkage failed: " ++ info_log)
  else
    Except.ok result

/-! ### Startup of `main` -/

/-- The constant `EXIT_FAILURE` of `<cstdlib>` (its value on POSIX and Windows). -/
def EXIT_FAILURE : Int := 1

/-- The constant `GLEW_NO_ERROR` of GLEW. -/
def GLEW_NO_ERROR : Int := 0

/-- The answers of SDL, GLEW and the OpenGL driver to the startup calls of `main`:
the result of `SDL_Init`, whether the window and the context are non-null, the result
of `glewInit`, the flag `GLEW_VERSION_3_3`, the text of `SDL_GetError` and
`glewGetErrorString` at each call, and handle, status and info log for the two shaders
and the program. -/
structure Startup where
  sdl_init : Int
  sdl_init_error : String
  window : Bool
  window_error : String
  gl_context : Bool
  gl_context_error : String
  glew_init : Int
  glew_error : String
  glew_version_3_3 : Bool
  vertex_shader : Nat
  vertex_status : Int
  vertex_log : String
  fragment_shader : Nat
  fragment_status : Int
  fragment_log : String
  program : Nat
  program_status : Int
  program_log : String

/-- The function `sdl2_fail` of the source: throws `message + SDL_GetError()`. -/
def sdl2_fail (message sdl_error : String) : Except String Unit :=
  Except.error (message ++ sdl_error)

/-- The function `glew_fail` of the source: throws `message + glewGetErrorString(error)`. -/
def glew_fail (message glew_error : String) : Except String Unit :=
  Except.error (message ++ glew_error)

/-- The body of `main` up to the creation of the program (lines 204 to 244): each
check throws on failure; the result is the program handle. -/
def main_startup (d : Startup) : Except String Nat := do
  if d.sdl_init ≠ 0 then
    sdl2_fail ("SDL_Init: ") d.sdl_init_error
  if !d.window then
    sdl2_fail ("SDL_CreateWindow: ") d.window_error
  if !d.gl_context then
    sdl2_fail ("SDL_GL_CreateContext: ") d.gl_context_error
  if d.glew_init ≠ GLEW_NO_ERROR then
    glew_fail ("glewInit: ") d.glew_error
  if !d.glew_version_3_3 then
    throw ("OpenGL 3.3 is not supported")
  let _vertex_shader ← create_shader d.vertex_shader d.vertex_status d.vertex_log
  let _fragment_shader ← create_shader d.fragment_shader d.fragment_status d.fragment_log
  let program ← create_program d.program d.program_status d.program_log
  pure program

/-- What `main` does after startup: either the handler of the function-try-block ran
(`std::cerr << e.what() << std::endl; return EXIT_FAILURE;`), or control reached the
frame loop with the program built. -/
inductive Outcome where
  | failure (stderr : String) (exit_code : Int)
  | frame_loop (program : Nat)
deriving DecidableEq

/-- The function `main` of the source up to the entry of the frame loop. -/
def main (d : Startup) : Outcome :=
  match main_startup d with
  | Except.error what => Outcome.failure what EXIT_FAILURE
  | Except.ok program => Outcome.frame_loop program

/-! ### The draw calls of a frame -/

/-- The primitive kinds used by the draw calls. -/
inductive Mode where
  | GL_TRIANGLES
  | GL_LINE_STRIP
  | GL_POINTS
deriving DecidableEq

/-- The OpenGL calls issued by a frame. -/
inductive GLCall (α : Type) where
  | glUseProgram (program : Nat)
  | glBindVertexArray (vao : Nat)
  | glUniformMatrix4fv (location : Nat) (value : List α)
  | glUniform1f (location : Nat) (value : α)
  | glDrawArrays (mode : Mode) (first count : Nat)

/-- The handles that `main` holds when the loop starts. -/
structure Handles where
  program : Nat
  trg_vao : Nat
  pts_vao : Nat
  bez_vao : Nat
  view_location : Nat
  is_bez_location : Nat
  time_location : Nat

/-- The array `view` of a frame, as written in the source (16 floats, row by row). -/
def view (width height : Int) : List α :=
  [2 / (width : α), 0, 0, -1,
   0, -2 / (height : α), 0, 1,
   0, 0, 1, 0,
   0, 0, 0, 1]

/-- The calls of a frame between `glClear` and `SDL_GL_SwapWindow` (lines 374 to 387). -/
def draw_frame (h : Handles) (width height : Int) (time : α) (s : State α) :
    List (GLCall α) :=
  [GLCall.glUseProgram h.program,
   GLCall.glBindVertexArray h.trg_vao,
   GLCall.glUniformMatrix4fv h.view_location (view width height),
   GLCall.glUniform1f h.time_location time,
   GLCall.glUniform1f h.is_bez_location (-1),
   GLCall.glDrawArrays Mode.GL_TRIANGLES 0 3,
   GLCall.glBindVertexArray h.pts_vao,
   GLCall.glDrawArrays Mode.GL_LINE_STRIP 0 s.pts.length,
   GLCall.glDrawArrays Mode.GL_POINTS 0 s.pts.length,
   GLCall.glBindVertexArray h.bez_vao,
   GLCall.glUniform1f h.is_bez_location 1,
   GLCall.glDrawArrays Mode.GL_LINE_STRIP 0 s.bez.length]

/-- The part of the OpenGL state that a draw call depends on here: the bound vertex
array and the values of the float uniforms, by location. -/
structure GLState (α : Type) where
  vao : Nat
  uniform1f : Nat → Option α

/-- One executed draw call: primitive kind, vertex count, the vertex array bound and
the value of the uniform `is_bez` at the time of the call. -/
structure Draw (α : Type) where
  mode : Mode
  count : Nat
  vao : Nat
  is_bez : Option α

/-- The effect of one call on the state, and the draw it issues, if any. -/
def exec (is_bez_location : Nat) (g : GLState α) : GLCall α → GLState α × Option (Draw α)
  | GLCall.glUseProgram _ => (g, none)
  | GLCall.glBindVertexArray vao => ({ g with vao := vao }, none)
  | GLCall.glUniformMatrix4fv _ _ => (g, none)
  | GLCall.glUniform1f location value =>
      ({ g with uniform1f := fun l => if l = location then some value else g.uniform1f l },
        none)
  | GLCall.glDrawArrays mode _ count =>
      (g, some ⟨mode, count, g.vao, g.uniform1f is_bez_location⟩)

/-- The draws issued by a sequence of calls, in order. -/
def draws (is_bez_location : Nat) : GLState α → List (GLCall α) → List (Draw α)
  | _, [] => []
  | g, c :: cs =>
      match exec is_bez_location g c with
      | (g1, some d) => d :: draws is_bez_location g1 cs
      | (g1, none) => draws is_bez_location g1 cs

/-! ### The view transform of the vertex shader -/

/-- A `mat4` uniform set by `glUniformMatrix4fv(location, 1, GL_TRUE, value)`: the 16
floats are read row by row. -/
def mat4_row_major (value : List α) : Fin 4 → Fin 4 → α :=
  fun i j => value.getD (4 * i.val + j.val) 0

/-- The GLSL product of a `mat4` and a `vec4`. -/
def mat4_mul_vec4 (m : Fin 4 → Fin 4 → α) (v : Fin 4 → α) : Fin 4 → α :=
  fun i => m i 0 * v 0 + m i 1 * v 1 + m i 2 * v 2 + m i 3 * v 3

/-- The output `gl_Position` of the vertex shader:
`gl_Position = view * vec4(in_position, 0.0, 1.0);`. -/
def vertex_shader_position (view : Fin 4 → Fin 4 → α) (in_position : vec2 α) : Fin 4 → α :=
  mat4_mul_vec4 view ![in_position.x, in_position.y, 0, 1]

/-! ### Specification-side helpers used by the proofs -/

/-- One linear interpolation of the De Casteljau scheme. -/
def lerp (t : α) (a b : vec2 α) : vec2 α :=
  ⟨a.x * (1 - t) + b.x * t, a.y * (1 - t) + b.y * t⟩

/-- The interpolation of the neighbours `j` and `j + 1` of a list of points. -/
def lerpAt (t : α) (L : List (vec2 α)) (j : Nat) : Option (vec2 α) :=
  match L[j]?, L[j + 1]? with
  | some a, some b => some (lerp t a b)
  | _, _ => none

/-- The De Casteljau triangle over the points `P`: row `k`, column `j`. -/
def dcPoint (t : α) (P : List (vec2 α)) : Nat → Nat → Option (vec2 α)
  | 0, j => P[j]?
  | k + 1, j =>
      match dcPoint t P k j, dcPoint t P k (j + 1) with
      | some a, some b => some (lerp t a b)
      | _, _ => none

/-- The control points `(0,0), (10,0), (10,10)` of the scenario of the specification. -/
def samplePts : List (vertex ℚ) :=
  [⟨⟨0, 0⟩, (47, 7, 102, 1)⟩, ⟨⟨10, 0⟩, (47, 7, 102, 1)⟩, ⟨⟨10, 10⟩, (47, 7, 102, 1)⟩]

/-- The De Casteljau recursion on one coordinate, given as a function of the index. -/
def dcFun (t : α) (f : Nat → α) : Nat → Nat → α
  | 0, j => f j
  | k + 1, j => dcFun t f k j * (1 - t) + dcFun t f k (j + 1) * t

/-- The Bernstein form of a Bezier curve on one coordinate: for the coefficients
`c_0, ..., c_(n-1)` the sum over `i` of `C(n-1, i) * (1-t)^(n-1-i) * t^i * c_i`. -/
def bernstein (t : α) (c : List α) : α :=
  Finset.sum (Finset.range c.length) (fun i =>
    (Nat.choose (c.length - 1) i : α) * (1 - t) ^ (c.length - 1 - i) * t ^ i * c.getD i 0)

end Definitions

end Practice3

/-! # practice2: the keyboard-driven offset -/

namespace Practice2

section Definitions

variable {α : Type} [LinearOrderedField α]

/-- The scancode `SDL_SCANCODE_RIGHT` of `SDL_scancode.h`. -/
def SDL_SCANCODE_RIGHT : Int := 79

/-- The scancode `SDL_SCANCODE_LEFT` of `SDL_scancode.h`. -/
def SDL_SCANCODE_LEFT : Int := 80

/-- The scancode `SDL_SCANCODE_DOWN` of `SDL_scancode.h`. -/
def SDL_SCANCODE_DOWN : Int := 81

/-- The scancode `SDL_SCANCODE_UP` of `SDL_scancode.h`. -/
def SDL_SCANCODE_UP : Int := 82

/-- The macro `SDL_SCANCODE_TO_KEYCODE(X) = X | (1 << 30)` of `SDL_keycode.h` (the
scancodes used here are below `2^30`, so the bitwise or is an addition). -/
def SDL_SCANCODE_TO_KEYCODE (x : Int) : Int := x + 2 ^ 30

/-- The keycode `SDLK_RIGHT` of `SDL_keycode.h`. -/
def SDLK_RIGHT : Int := SDL_SCANCODE_TO_KEYCODE SDL_SCANCODE_RIGHT

/-- The keycode `SDLK_LEFT` of `SDL_keycode.h`. -/
def SDLK_LEFT : Int := SDL_SCANCODE_TO_KEYCODE SDL_SCANCODE_LEFT

/-- The keycode `SDLK_DOWN` of `SDL_keycode.h`. -/
def SDLK_DOWN : Int := SDL_SCANCODE_TO_KEYCODE SDL_SCANCODE_DOWN

/-- The keycode `SDLK_UP` of `SDL_keycode.h`. -/
def SDLK_UP : Int := SDL_SCANCODE_TO_KEYCODE SDL_SCANCODE_UP

/-- The variables of `main` that the keyboard acts on: the map `key_down` (a key that
was never written reads as `false`) and the offset `x`, `y`. -/
structure State (α : Type) where
  key_down : Int → Bool
  x : α
  y : α

/-- The state of `main` when the loop is entered: `key_down` empty, `x = 0, y = 0`. -/
def init : State α :=
  { key_down := fun _ => false, x := 0, y := 0 }

/-- The keyboard events of the loop: `sym` is `event.key.keysym.sym`. -/
inductive Event where
  | SDL_KEYDOWN (sym : Int)
  | SDL_KEYUP (sym : Int)

/-- The two keyboard branches of the `switch`:
`key_down[event.key.keysym.sym] = true;` and `... = false;`. -/
def handle (s : State α) : Event → State α
  | Event.SDL_KEYDOWN sym =>
      { s with key_down := fun k => if k = sym then true else s.key_down k }
  | Event.SDL_KEYUP sym =>
      { s with key_down := fun k => if k = sym then false else s.key_down k }

/-- The update of a frame (lines 217 to 228), with `speed` and the frame time `dt`. -/
def update (speed dt : α) (s : State α) : State α :=
  let x1 := if s.key_down SDL_SCANCODE_LEFT then s.x - speed * dt else s.x
  let x2 := if s.key_down SDL_SCANCODE_RIGHT then x1 + speed * dt else x1
  let y1 := if s.key_down SDL_SCANCODE_UP then s.y + speed * dt else s.y
  let y2 := if s.key_down SDL_SCANCODE_DOWN then y1 - speed * dt else y1
  { s with x := x2, y := y2 }

end Definitions

end Practice2

/-! # practice4: the matrix class `mth::matr` -/

namespace Practice4

section Definitions

variable {α : Type} [LinearOrderedField α]

/-- The class `mth::matr<Type>`: the array `Type A[4][4]`. -/
abbrev matr (α : Type) : Type := Fin 4 → Fin 4 → α

/-- The constructor of `matr` from sixteen entries, `A[i][j] = Aij`. -/
def matr.mk (A00 A01 A02 A03 A10 A11 A12 A13 A20 A21 A22 A23 A30 A31 A32 A33 : α) :
    matr α :=
  ![![A00, A01, A02, A03], ![A10, A11, A12, A13], ![A20, A21, A22, A23],
    ![A30, A31, A32, A33]]

/-- The function `matr::Identity`. -/
def matr.Identity : matr α :=
  matr.mk 1 0 0 0
          0 1 0 0
          0 0 1 0
          0 0 0 1

/-- The operator `matr::operator*`: for every `i`, `j` the loop
`for (k = 0, m.A[i][j] = 0; k < 4; k++) m.A[i][j] += A[i][k] * m1.A[k][j];`. -/
def matr.mul (A m1 : matr α) : matr α :=
  fun i j => (List.finRange 4).foldl (fun acc k => acc + A i k * m1 k j) 0

/-- The function `matr::Frustum`. -/
def matr.Frustum (right top near far : α) : matr α :=
  matr.mk (near / right * 1) 0 0 0
          0 (near / top * 1) 0 0
          0 0 (-(far + near) / (far - near) * 1) (-2 * far * near / (far - near))
          0 0 (-1) 1

/-- The conversion `operator Type *`: the entries row by row, as `glUniformMatrix4fv`
reads them. -/
def matr.toArray (A : matr α) : List α :=
  (List.finRange 4).flatMap (fun i => (List.finRange 4).map (fun j => A i j))

end Definitions

end Practice4

/-! # practice5: the inline projection matrix -/

namespace Practice5

section Definitions

variable {α : Type} [LinearOrderedField α]

/-- The array `projection` of a frame of `main` (16 floats, row by row). -/
def projection (right top near far : α) : List α :=
  [near / right, 0, 0, 0,
   0, near / top, 0, 0,
   0, 0, -(far + near) / (far - near), -2 * far * near / (far - near),
   0, 0, -1, 0]

end Definitions

end Practice5

namespace Practice3


section BezierLemmas

variable {α : Type} [LinearOrderedField α]

theorem bezier_inner_eq (t : α) (L : List (vec2 α)) (i : Nat) :
    bezier_inner t L i = (lerpAt t L i).map (fun v => L.set i v) := by
  unfold bezier_inner lerpAt lerp
  cases L[i]? <;> cases L[i + 1]? <;> rfl

theorem lerpAt_isSome (t : α) (L : List (vec2 α)) (j : Nat) (h : j + 1 < L.length) :
    ∃ v, lerpAt t L j = some v := by
  have h0 : j < L.length := by omega
  refine ⟨lerp t L[j] L[j + 1], ?_⟩
  simp [lerpAt, List.getElem?_eq_getElem h, List.getElem?_eq_getElem h0]

/-- The inner loop of `bezier` run for `i = 0, ..., m - 1` on a list with at least
`m + 1` entries succeeds, keeps the length, replaces the entries below `m` by the
interpolation with their right neighbour and leaves the others alone. -/
theorem bezier_inner_fold (t : α) (L : List (vec2 α)) :
    ∀ m, m + 1 ≤ L.length →
      ∃ L1, (List.range m).foldlM (bezier_inner t) L = some L1 ∧ L1.length = L.length ∧
        ∀ j, L1[j]? = if j < m then lerpAt t L j else L[j]? := by
  intro m
  induction m with
  | zero => intro _; exact ⟨L, rfl, rfl, fun j => by simp⟩
  | succ m ih =>
    intro hm
    obtain ⟨L1, hfold, hlen, hget⟩ := ih (by omega)
    obtain ⟨v, hv⟩ := lerpAt_isSome t L m (by omega)
    have hv1 : lerpAt t L1 m = some v := by
      unfold lerpAt at hv ⊢
      rw [hget m, hget (m + 1)]
      simpa using hv
    refine ⟨L1.set m v, ?_, by simp [hlen], ?_⟩
    · rw [List.range_succ, List.foldlM_append, hfold]
      simp [bezier_inner_eq, hv1]
    · intro j
      rw [List.getElem?_set]
      by_cases hjm : m = j
      · subst hjm
        have : m < L1.length := by omega
        simp [this, hv]
      · by_cases hlt : j < m
        · have : j < m + 1 := by omega
          simp [hjm, hget j, hlt, this]
        · have : ¬ j < m + 1 := by omega
          simp [hjm, hget j, hlt, this]

/-- The outer loop of `bezier` run for `k = 0, ..., K - 1`: the entry `j` with
`j + K < n` holds the point of row `K` of the De Casteljau triangle. -/
theorem bezier_outer_fold (t : α) (P : List (vec2 α)) :
    ∀ K, K + 1 ≤ P.length →
      ∃ L, (List.range K).foldlM (bezier_outer t P.length) P = some L ∧
        L.length = P.length ∧ ∀ j, j + K < P.length → L[j]? = dcPoint t P K j := by
  intro K
  induction K with
  | zero => intro _; exact ⟨P, rfl, rfl, fun j _ => rfl⟩
  | succ K ih =>
    intro hK
    obtain ⟨L, hfold, hlen, hget⟩ := ih (by omega)
    obtain ⟨L1, hfold1, hlen1, hget1⟩ :=
      bezier_inner_fold t L (P.length - (K + 1)) (by omega)
    refine ⟨L1, ?_, by omega, ?_⟩
    · rw [List.range_succ, List.foldlM_append, hfold]
      simpa [bezier_outer] using hfold1
    · intro j hj
      have hj1 : j < P.length - (K + 1) := by omega
      rw [hget1 j, if_pos hj1]
      unfold lerpAt
      rw [hget j (by omega), hget (j + 1) (by omega)]
      rfl

/-- The loops of `bezier` compute the apex of the De Casteljau triangle. -/
theorem bezier_eq_dcPoint (vertices : List (vertex α)) (t : α) :
    bezier vertices t =
      dcPoint t (vertices.map (fun v => v.position)) (vertices.length - 1) 0 := by
  cases vertices with
  | nil => rfl
  | cons v vs =>
    obtain ⟨L, hfold, _, hget⟩ :=
      bezier_outer_fold t ((v :: vs).map (fun v => v.position)) vs.length (by simp)
    have h0 := hget 0 (by simp)
    simp only [List.length_map, List.length_cons] at hfold
    simp only [bezier, List.length_cons, Nat.add_sub_cancel, hfold]
    exact h0

theorem dcPoint_isSome (t : α) (P : List (vec2 α)) :
    ∀ k j, j + k < P.length → ∃ v, dcPoint t P k j = some v := by
  intro k
  induction k with
  | zero => intro j hj; exact ⟨P[j], by simp [dcPoint, List.getElem?_eq_getElem hj]⟩
  | succ k ih =>
    intro j hj
    obtain ⟨a, ha⟩ := ih j (by omega)
    obtain ⟨b, hb⟩ := ih (j + 1) (by omega)
    exact ⟨lerp t a b, by simp [dcPoint, ha, hb]⟩

theorem dcPoint_zero (P : List (vec2 α)) :
    ∀ k j, j + k < P.length → dcPoint (0 : α) P k j = P[j]? := by
  intro k
  induction k with
  | zero => intro j _; rfl
  | succ k ih =>
    intro j hj
    have hj0 : j < P.length := by omega
    have hj1 : j + 1 < P.length := by omega
    simp [dcPoint, ih j (by omega), ih (j + 1) (by omega),
      List.getElem?_eq_getElem hj0, List.getElem?_eq_getElem hj1, lerp]

theorem dcPoint_one (P : List (vec2 α)) :
    ∀ k j, j + k < P.length → dcPoint (1 : α) P k j = P[j + k]? := by
  intro k
  induction k with
  | zero => intro j _; rfl
  | succ k ih =>
    intro j hj
    have hj0 : j + k < P.length := by omega
    have hj1 : j + 1 + k < P.length := by omega
    have e : j + (k + 1) = j + 1 + k := by omega
    simp [dcPoint, ih j (by omega), ih (j + 1) (by omega),
      List.getElem?_eq_getElem hj0, List.getElem?_eq_getElem hj1, lerp, e]

/-- On a non-empty control-point sequence `bezier` returns a point. -/
theorem bezier_isSome (vertices : List (vertex α)) (t : α) (h : 1 ≤ vertices.length) :
    ∃ p, bezier vertices t = some p := by
  rw [bezier_eq_dcPoint]
  exact dcPoint_isSome t _ _ 0 (by simp; omega)

/-- At `t = 0` the result of `bezier` is the position of the first control point. -/
theorem bezier_zero (vertices : List (vertex α)) (h : 1 ≤ vertices.length) :
    bezier vertices 0 = vertices[0]?.map (fun v => v.position) := by
  rw [bezier_eq_dcPoint, dcPoint_zero _ _ 0 (by simp; omega), List.getElem?_map]

/-- At `t = 1` the result of `bezier` is the position of the last control point. -/
theorem bezier_one (vertices : List (vertex α)) (h : 1 ≤ vertices.length) :
    bezier vertices 1 = vertices[vertices.length - 1]?.map (fun v => v.position) := by
  rw [bezier_eq_dcPoint, dcPoint_one _ _ 0 (by simp; omega), List.getElem?_map]
  simp

end BezierLemmas

section TessellationLemmas

variable {α : Type} [LinearOrderedField α]

/-- The loop of `calc_bez` run `N` times on a non-empty control-point sequence
succeeds; it has pushed `N` samples, sample `i` being `bezier` at the accumulated
parameter `i * (1 / cnt)`, and `t` holds `N * (1 / cnt)`. -/
theorem calc_bez_fold (cnt : Int) (pts : List (vertex α)) (hn : 1 ≤ pts.length) :
    ∀ N : Nat, ∃ bez : List (vertex α),
      (List.range N).foldlM (calc_bez_body cnt pts) ([], 0) =
          some (bez, (N : α) * (1 / (cnt : α))) ∧
        bez.length = N ∧
        ∀ i, i < N → ∃ p, bezier pts ((i : α) * (1 / (cnt : α))) = some p ∧
          bez[i]? = some ⟨p, (255, 0, 0, 1)⟩ := by
  intro N
  induction N with
  | zero => exact ⟨[], by simp, rfl, fun i hi => absurd hi (by omega)⟩
  | succ N ih =>
    obtain ⟨bez, hfold, hlen, hget⟩ := ih
    obtain ⟨p, hp⟩ := bezier_isSome pts ((N : α) * (1 / (cnt : α))) hn
    refine ⟨bez ++ [⟨p, (255, 0, 0, 1)⟩], ?_, by simp [hlen], ?_⟩
    · rw [List.range_succ, List.foldlM_append, hfold]
      simp only [List.foldlM_cons, List.foldlM_nil, calc_bez_body, hp, Option.bind_eq_bind,
        Option.some_bind, Option.pure_def, Option.bind_some]
      congr 2
      push_cast
      ring
    · intro i hi
      by_cases hiN : i < N
      · obtain ⟨q, hq, hqi⟩ := hget i hiN
        exact ⟨q, hq, by rw [List.getElem?_append_left (by omega)]; exact hqi⟩
      · have : i = N := by omega
        subst this
        refine ⟨p, hp, ?_⟩
        rw [← hlen]
        exact List.getElem?_concat_length _ _

end TessellationLemmas

section TessellationClaims

variable {α : Type} [LinearOrderedField α]

/-- C1: for a control-point sequence of length `n ≥ 1` and a quality `≥ 0`, `calc_bez`
returns a curve with exactly `quality * (n - 1) + 1` samples. -/
theorem calc_bez_length (quality : Int) (pts : List (vertex α))
    (hn : 1 ≤ pts.length) (hq : 0 ≤ quality) :
    ∃ bez, calc_bez quality pts = some bez ∧
      (bez.length : Int) = quality * ((pts.length : Int) - 1) + 1 := by
  obtain ⟨bez, hfold, hlen, _⟩ :=
    calc_bez_fold (((pts.length : Int) - 1) * quality) pts hn
      ((((pts.length : Int) - 1) * quality + 1).toNat)
  refine ⟨bez, by simp [calc_bez, calc_bez_loop, hfold], ?_⟩
  have hcnt : 0 ≤ ((pts.length : Int) - 1) * quality :=
    Int.mul_nonneg (by omega) hq
  rw [hlen, Int.toNat_of_nonneg (by omega)]
  ring

/-- C2: for `n ≥ 2` control points and a quality `≥ 1`, the first sample of the curve
returned by `calc_bez` is at the first control point and the last sample at the last
control point; with quality `1` the curve has exactly `n` samples. -/
theorem calc_bez_endpoints (quality : Int) (pts : List (vertex α))
    (hn : 2 ≤ pts.length) (hq : 1 ≤ quality) :
    ∃ bez, calc_bez quality pts = some bez ∧
      bez.head?.map (fun v => v.position) = pts.head?.map (fun v => v.position) ∧
      bez.getLast?.map (fun v => v.position) = pts.getLast?.map (fun v => v.position) ∧
      (quality = 1 → bez.length = pts.length) := by
  have hcnt : 1 ≤ ((pts.length : Int) - 1) * quality := by nlinarith
  obtain ⟨c, hc⟩ : ∃ c : Nat, ((pts.length : Int) - 1) * quality = c :=
    ⟨_, (Int.toNat_of_nonneg (by omega)).symm⟩
  have hc1 : 1 ≤ c := by omega
  obtain ⟨bez, hfold, hlen, hget⟩ :=
    calc_bez_fold (((pts.length : Int) - 1) * quality) pts (by omega)
      ((((pts.length : Int) - 1) * quality + 1).toNat)
  have hN : (((pts.length : Int) - 1) * quality + 1).toNat = c + 1 := by omega
  rw [hN] at hlen hget
  refine ⟨bez, by simp [calc_bez, calc_bez_loop, hfold], ?_, ?_, ?_⟩
  · obtain ⟨p, hp, hb⟩ := hget 0 (by omega)
    rw [Nat.cast_zero, zero_mul, bezier_zero pts (by omega)] at hp
    rw [List.head?_eq_getElem?, List.head?_eq_getElem?, hb, hp]
    rfl
  · obtain ⟨p, hp, hb⟩ := hget c (by omega)
    have hcne : ((c : Int) : α) ≠ 0 := by
      have : (c : α) ≠ 0 := Nat.cast_ne_zero.mpr (by omega)
      simpa using this
    rw [hc, Int.cast_natCast, mul_one_div, div_self (by simpa using hcne),
      bezier_one pts (by omega)] at hp
    rw [List.getLast?_eq_getElem?, List.getLast?_eq_getElem?, hlen, Nat.add_sub_cancel,
      hb, hp]
    rfl
  · intro h1
    rw [hlen]
    subst h1
    omega

/-- C3: when `cnt = (n - 1) * quality ≥ 1`, sample `i` of the curve returned by
`calc_bez`, for every `0 ≤ i ≤ cnt`, is `bezier` of the control points at `i / cnt`
(with the curve colour): the parameter steps uniformly over `[0, 1]`. -/
theorem calc_bez_sample (quality : Int) (pts : List (vertex α))
    (hq : 0 ≤ quality) (hcnt : 1 ≤ ((pts.length : Int) - 1) * quality) :
    ∃ bez, calc_bez quality pts = some bez ∧
      ∀ i : Nat, (i : Int) ≤ ((pts.length : Int) - 1) * quality →
        ∃ p, bezier pts ((i : α) / ((((pts.length : Int) - 1) * quality : Int) : α)) = some p ∧
          bez[i]? = some ⟨p, (255, 0, 0, 1)⟩ := by
  have hn : 1 ≤ pts.length := by
    by_contra h
    have h0 : pts.length = 0 := by omega
    rw [h0] at hcnt
    simp at hcnt
    omega
  obtain ⟨bez, hfold, _, hget⟩ :=
    calc_bez_fold (((pts.length : Int) - 1) * quality) pts hn
      ((((pts.length : Int) - 1) * quality + 1).toNat)
  refine ⟨bez, by simp [calc_bez, calc_bez_loop, hfold], ?_⟩
  intro i hi
  obtain ⟨p, hp, hb⟩ := hget i (by omega)
  rw [mul_one_div] at hp
  exact ⟨p, hp, hb⟩

/-- C4: `bezier` of two control points at `t = 0.5` is their midpoint. -/
theorem bezier_midpoint (P0 P1 : vertex α) :
    bezier [P0, P1] (1 / 2) =
      some ⟨(P0.position.x + P1.position.x) / 2, (P0.position.y + P1.position.y) / 2⟩ := by
  rw [bezier_eq_dcPoint]
  simp only [List.map_cons, List.map_nil, List.length_cons, List.length_nil, dcPoint, lerp,
    List.getElem?_cons_zero, List.getElem?_cons_succ, Nat.zero_add, Nat.add_sub_cancel]
  congr 2 <;> ring

end TessellationClaims

section DistanceLemmas

variable {α : Type} [LinearOrderedField α]

/-- The loop of `calc_dst` run for `i = 1, ..., m` on a curve with at least `m + 1`
samples succeeds; the table then has `m + 1` entries, starts with `0`, and every
later entry is its predecessor plus `hypot` of the coordinate differences. -/
theorem calc_dst_fold (hypot : α → α → α) (bez : List (vertex α)) :
    ∀ m, m + 1 ≤ bez.length →
      ∃ dst, (List.range' 1 m).foldlM (calc_dst_body hypot bez) [0] = some dst ∧
        dst.length = m + 1 ∧ dst[0]? = some 0 ∧
        ∀ i, 1 ≤ i → i ≤ m → ∃ d p q, dst[i - 1]? = some d ∧ bez[i - 1]? = some p ∧
          bez[i]? = some q ∧
          dst[i]? = some
            (d + hypot (p.position.x - q.position.x) (p.position.y - q.position.y)) := by
  intro m
  induction m with
  | zero => intro _; exact ⟨[0], rfl, rfl, rfl, fun i h1 h0 => absurd h1 (by omega)⟩
  | succ m ih =>
    intro hm
    obtain ⟨dst, hfold, hlen, h0, hrec⟩ := ih (by omega)
    obtain ⟨dm, hd⟩ : ∃ x, dst[m]? = some x := ⟨_, List.getElem?_eq_getElem (by omega)⟩
    obtain ⟨pm, hp⟩ : ∃ x, bez[m]? = some x := ⟨_, List.getElem?_eq_getElem (by omega)⟩
    obtain ⟨qm, hq⟩ : ∃ x, bez[m + 1]? = some x := ⟨_, List.getElem?_eq_getElem (by omega)⟩
    refine ⟨dst ++ [dm + hypot (pm.position.x - qm.position.x)
      (pm.position.y - qm.position.y)], ?_, by simp [hlen], ?_, ?_⟩
    · rw [List.range'_1_concat, List.foldlM_append, hfold]
      simp [calc_dst_body, Nat.add_comm 1 m, hd, hp, hq]
    · rw [List.getElem?_append_left (by omega)]; exact h0
    · intro i h1 hi
      by_cases him : i ≤ m
      · obtain ⟨d, p, q, e1, e2, e3, e4⟩ := hrec i h1 him
        refine ⟨d, p, q, ?_, e2, e3, ?_⟩
        · rw [List.getElem?_append_left (by omega)]; exact e1
        · rw [List.getElem?_append_left (by omega)]; exact e4
      · have : i = m + 1 := by omega
        subst this
        refine ⟨dm, pm, qm, ?_, hp, hq, ?_⟩
        · rw [Nat.add_sub_cancel, List.getElem?_append_left (by omega)]; exact hd
        · have hlast := List.getElem?_concat_length dst
            (dm + hypot (pm.position.x - qm.position.x) (pm.position.y - qm.position.y))
          rwa [hlen] at hlast

/-- The function `calc_dst` never reads out of bounds: it returns a table for every
curve, and the table has `max 1 n` entries for a curve of `n` samples. -/
theorem calc_dst_total (hypot : α → α → α) (bez : List (vertex α)) :
    ∃ dst, calc_dst hypot bez = some dst ∧ dst.length = max 1 bez.length ∧
      dst[0]? = some 0 ∧
      ∀ i, 1 ≤ i → i < bez.length → ∃ d p q, dst[i - 1]? = some d ∧ bez[i - 1]? = some p ∧
          bez[i]? = some q ∧
          dst[i]? = some
            (d + hypot (p.position.x - q.position.x) (p.position.y - q.position.y)) := by
  cases hb : bez with
  | nil => exact ⟨[0], rfl, rfl, rfl, fun i h1 hi => absurd hi (by simp)⟩
  | cons v vs =>
    obtain ⟨dst, hfold, hlen, h0, hrec⟩ := calc_dst_fold hypot (v :: vs) vs.length (by simp)
    refine ⟨dst, ?_, ?_, h0, ?_⟩
    · simpa [calc_dst] using hfold
    · rw [hlen]; simp
    · intro i h1 hi
      exact hrec i h1 (by simp at hi; omega)

end DistanceLemmas

section DistanceClaims

variable {α : Type} [LinearOrderedField α]

/-- C5: for every curve `P`, `calc_dst` returns a table with `table[0] = 0` and, for
`1 ≤ i < length P`, `table[i] = table[i-1] + e` where `e = hypot (dx) (dy)` of the
coordinate differences of `P[i-1]` and `P[i]`; when `hypot` is the Euclidean norm,
`e` is the Euclidean distance of the two samples (`0 ≤ e`, `e² = dx² + dy²`). -/
theorem calc_dst_recurrence (hypot : α → α → α)
    (hhyp : ∀ a b, 0 ≤ hypot a b ∧ hypot a b ^ 2 = a ^ 2 + b ^ 2)
    (bez : List (vertex α)) :
    ∃ dst, calc_dst hypot bez = some dst ∧ dst[0]? = some 0 ∧
      ∀ i, 1 ≤ i → i < bez.length → ∃ d p q e, dst[i - 1]? = some d ∧
        bez[i - 1]? = some p ∧ bez[i]? = some q ∧ dst[i]? = some (d + e) ∧
        e = hypot (p.position.x - q.position.x) (p.position.y - q.position.y) ∧
        0 ≤ e ∧
        e ^ 2 = (q.position.x - p.position.x) ^ 2 + (q.position.y - p.position.y) ^ 2 := by
  obtain ⟨dst, hdst, _, h0, hrec⟩ := calc_dst_total hypot bez
  refine ⟨dst, hdst, h0, ?_⟩
  intro i h1 hi
  obtain ⟨d, p, q, e1, e2, e3, e4⟩ := hrec i h1 hi
  refine ⟨d, p, q, _, e1, e2, e3, e4, rfl, (hhyp _ _).1, ?_⟩
  rw [(hhyp _ _).2]
  ring

/-- C6: when `hypot` is non-negative, the table returned by `calc_dst` for a non-empty
curve starts with `0` and is non-decreasing: `table[i-1] ≤ table[i]` for every valid
index `i ≥ 1`. -/
theorem calc_dst_monotone (hypot : α → α → α) (hnn : ∀ a b, 0 ≤ hypot a b)
    (bez : List (vertex α)) (hne : bez ≠ []) :
    ∃ dst, calc_dst hypot bez = some dst ∧ dst[0]? = some 0 ∧
      ∀ i, 1 ≤ i → i < dst.length →
        ∃ a b, dst[i - 1]? = some a ∧ dst[i]? = some b ∧ a ≤ b := by
  obtain ⟨dst, hdst, hlen, h0, hrec⟩ := calc_dst_total hypot bez
  refine ⟨dst, hdst, h0, ?_⟩
  intro i h1 hi
  have hpos : 1 ≤ bez.length := by
    cases bez with
    | nil => exact absurd rfl hne
    | cons v vs => simp
  obtain ⟨d, p, q, e1, _, _, e4⟩ := hrec i h1 (by omega)
  exact ⟨d, _, e1, e4, le_add_of_nonneg_right (hnn _ _)⟩

/-- C7 (as amended): the table returned by `calc_dst` has `max 1 n` entries for a curve
of `n` samples: the length of the curve when the curve is non-empty, and one entry
(the initial `0`) when it is empty. -/
theorem calc_dst_length (hypot : α → α → α) (bez : List (vertex α)) :
    ∃ dst, calc_dst hypot bez = some dst ∧ dst.length = max 1 bez.length := by
  obtain ⟨dst, hdst, hlen, _, _⟩ := calc_dst_total hypot bez
  exact ⟨dst, hdst, hlen⟩

end DistanceClaims

section Witnesses

/-- Witness of C1: three control points with quality `2` give five samples. -/
theorem calc_bez_length_witness :
    1 ≤ samplePts.length ∧ (0 : Int) ≤ 2 ∧
      ∃ bez, calc_bez 2 samplePts = some bez ∧ bez.length = 5 := by
  refine ⟨by decide, by decide, ?_⟩
  obtain ⟨bez, hb, hlen⟩ := calc_bez_length 2 samplePts (by decide) (by decide)
  refine ⟨bez, hb, ?_⟩
  simp only [samplePts, List.length_cons, List.length_nil] at hlen
  omega

/-- Witness of C2: the control points `(0,0), (10,0), (10,10)` with quality `2` give a
curve that starts at `(0,0)` and ends at `(10,10)`. -/
theorem calc_bez_endpoints_witness :
    2 ≤ samplePts.length ∧ (1 : Int) ≤ 2 ∧
      ∃ bez, calc_bez 2 samplePts = some bez ∧
        bez.head?.map (fun v => v.position) = some ⟨0, 0⟩ ∧
        bez.getLast?.map (fun v => v.position) = some ⟨10, 10⟩ := by
  refine ⟨by decide, by decide, ?_⟩
  obtain ⟨bez, hb, hfirst, hlast, _⟩ :=
    calc_bez_endpoints 2 samplePts (by decide) (by decide)
  exact ⟨bez, hb, hfirst, hlast⟩

/-- Witness of C3: with the three sample control points and quality `2` (`cnt = 4`),
sample `3` of the curve is `bezier` at `3 / 4`. -/
theorem calc_bez_sample_witness :
    (0 : Int) ≤ 2 ∧ 1 ≤ ((samplePts.length : Int) - 1) * 2 ∧
      ∃ bez, calc_bez 2 samplePts = some bez ∧
        ∃ p, bezier samplePts (3 / 4) = some p ∧ bez[3]? = some ⟨p, (255, 0, 0, 1)⟩ := by
  refine ⟨by decide, by decide, ?_⟩
  obtain ⟨bez, hb, hget⟩ := calc_bez_sample 2 samplePts (by decide) (by decide)
  obtain ⟨p, hp, hbp⟩ := hget 3 (by decide)
  refine ⟨bez, hb, p, ?_, hbp⟩
  have e : ((3 : Nat) : ℚ) / ((((samplePts.length : Int) - 1) * 2 : Int) : ℚ) = 3 / 4 := by
    simp [samplePts]
  rw [e] at hp
  exact hp

/-- Witness of C5: with the Euclidean norm for `hypot`, the curve `(0,0), (3,4)` has
the table `0, 5`. -/
theorem calc_dst_recurrence_witness :
    (∀ a b : ℝ, 0 ≤ Real.sqrt (a ^ 2 + b ^ 2) ∧
        Real.sqrt (a ^ 2 + b ^ 2) ^ 2 = a ^ 2 + b ^ 2) ∧
      ∃ dst, calc_dst (fun a b : ℝ => Real.sqrt (a ^ 2 + b ^ 2))
          [⟨⟨0, 0⟩, (255, 0, 0, 1)⟩, ⟨⟨3, 4⟩, (255, 0, 0, 1)⟩] = some dst ∧
        dst[0]? = some 0 ∧ dst[1]? = some 5 := by
  have hhyp : ∀ a b : ℝ, 0 ≤ Real.sqrt (a ^ 2 + b ^ 2) ∧
      Real.sqrt (a ^ 2 + b ^ 2) ^ 2 = a ^ 2 + b ^ 2 :=
    fun a b => ⟨Real.sqrt_nonneg _, Real.sq_sqrt (by positivity)⟩
  refine ⟨hhyp, ?_⟩
  obtain ⟨dst, hd, h0, hrec⟩ := calc_dst_recurrence (fun a b : ℝ => Real.sqrt (a ^ 2 + b ^ 2))
    hhyp [⟨⟨0, 0⟩, (255, 0, 0, 1)⟩, ⟨⟨3, 4⟩, (255, 0, 0, 1)⟩]
  obtain ⟨d, p, q, e, e1, e2, e3, e4, _, hnn, hsq⟩ := hrec 1 (le_refl 1) (by simp)
  refine ⟨dst, hd, h0, ?_⟩
  simp only [Nat.sub_self, List.getElem?_cons_zero, List.getElem?_cons_succ,
    Option.some.injEq] at e1 e2 e3
  rw [h0, Option.some.injEq] at e1
  subst e1 e2 e3
  have h5 : e = 5 := by
    have : (e - 5) * (e + 5) = 0 := by
      simp only at hsq
      nlinarith
    rcases mul_eq_zero.mp this with h | h
    · linarith
    · linarith
  rw [e4, h5]
  norm_num

/-- Witness of C6: with the Euclidean norm for `hypot`, the table of the curve
`(0,0), (3,4)` is non-decreasing. -/
theorem calc_dst_monotone_witness :
    (∀ a b : ℝ, 0 ≤ Real.sqrt (a ^ 2 + b ^ 2)) ∧
      ([⟨⟨0, 0⟩, (255, 0, 0, 1)⟩, ⟨⟨3, 4⟩, (255, 0, 0, 1)⟩] : List (vertex ℝ)) ≠ [] ∧
      ∃ dst, calc_dst (fun a b : ℝ => Real.sqrt (a ^ 2 + b ^ 2))
          [⟨⟨0, 0⟩, (255, 0, 0, 1)⟩, ⟨⟨3, 4⟩, (255, 0, 0, 1)⟩] = some dst ∧
        dst[0]? = some 0 ∧
        ∀ i, 1 ≤ i → i < dst.length →
          ∃ a b, dst[i - 1]? = some a ∧ dst[i]? = some b ∧ a ≤ b :=
  ⟨fun _ _ => Real.sqrt_nonneg _, by simp,
    calc_dst_monotone _ (fun _ _ => Real.sqrt_nonneg _) _ (by simp)⟩

/-- Counterexample to C7: for the empty curve `calc_dst` returns the one-entry table
`[0]`, whose length is not the length of the curve. -/
theorem calc_dst_length_counterexample :
    calc_dst (fun a b : ℝ => Real.sqrt (a ^ 2 + b ^ 2)) [] = some [0] ∧
      ([0] : List ℝ).length ≠ ([] : List (vertex ℝ)).length :=
  ⟨rfl, by decide⟩

end Witnesses

section EditorLemmas

variable {α : Type} [LinearOrderedField α]

/-- What a successful `recompute` leaves behind: the curve is `calc_bez` of the
control points and quality (which it does not touch), the table is `calc_dst` of the
new curve, and both were uploaded. -/
theorem recompute_eq_some (hypot : α → α → α) (s s1 : State α)
    (h : recompute hypot s = some s1) :
    calc_bez s.quality s.pts = some s1.bez ∧ calc_dst hypot s1.bez = some s1.dst ∧
      s1.pts = s.pts ∧ s1.quality = s.quality ∧ s1.pts_vbo = s.pts_vbo ∧
      s1.bez_vbo = s1.bez ∧ s1.dst_vbo = s1.dst := by
  unfold recompute at h
  cases hb : calc_bez s.quality s.pts with
  | none => simp [hb] at h
  | some bez =>
    cases hd : calc_dst hypot bez with
    | none => simp [hb, hd] at h
    | some dst =>
      simp only [hb, hd, Option.some.injEq] at h
      subst h
      exact ⟨rfl, hd, rfl, rfl, rfl, rfl, rfl⟩

/-- The function `calc_bez` returns a curve when there is a control point, and also
when there is none but `quality` is positive (then `cnt < 0` and the loop is skipped). -/
theorem calc_bez_isSome (quality : Int) (pts : List (vertex α))
    (h : 1 ≤ pts.length ∨ 0 < quality) : ∃ bez, calc_bez quality pts = some bez := by
  by_cases hn : 1 ≤ pts.length
  · obtain ⟨bez, hfold, _, _⟩ :=
      calc_bez_fold (((pts.length : Int) - 1) * quality) pts hn
        ((((pts.length : Int) - 1) * quality + 1).toNat)
    exact ⟨bez, by simp [calc_bez, calc_bez_loop, hfold]⟩
  · have h0 : pts.length = 0 := by omega
    have hq : 0 < quality := by omega
    have hN : (((pts.length : Int) - 1) * quality + 1).toNat = 0 := by
      rw [h0]; simp; omega
    exact ⟨[], by simp [calc_bez, calc_bez_loop, hN]⟩

/-- With no control point and quality `0` the loop of `calc_bez` runs once and
`bezier` reads `points[0]` of an empty array. -/
theorem calc_bez_nil_zero : calc_bez (0 : Int) ([] : List (vertex α)) = none := by
  simp [calc_bez, calc_bez_loop, calc_bez_body, bezier, List.range_succ]

/-- The two calls of `recompute` succeed when there is a control point or `quality`
is positive. -/
theorem recompute_isSome (hypot : α → α → α) (s : State α)
    (h : 1 ≤ s.pts.length ∨ 0 < s.quality) : ∃ s1, recompute hypot s = some s1 := by
  obtain ⟨bez, hb⟩ := calc_bez_isSome s.quality s.pts h
  obtain ⟨dst, hd, _⟩ := calc_dst_total hypot bez
  exact ⟨{ s with bez := bez, bez_vbo := bez, dst := dst, dst_vbo := dst },
    by simp [recompute, hb, hd]⟩

/-- A property that every handler preserves holds after every run of events. -/
theorem run_invariant (hypot : α → α → α) (I : State α → Prop)
    (hstep : ∀ s e s1, I s → step hypot s e = some s1 → I s1) :
    ∀ evs s s1, I s → run hypot s evs = some s1 → I s1 := by
  intro evs
  induction evs with
  | nil =>
    intro s s1 hs h
    simp only [run, List.foldlM_nil, Option.pure_def, Option.some.injEq] at h
    exact h ▸ hs
  | cons e evs ih =>
    intro s s1 hs h
    simp only [run, List.foldlM_cons, Option.bind_eq_bind] at h
    cases he : step hypot s e with
    | none => simp [he] at h
    | some s2 =>
      rw [he, Option.some_bind] at h
      exact ih s2 s1 (hstep s e s2 hs he) h

/-- Right click with no control point: the handler does nothing. -/
theorem step_rightClick_nil (hypot : α → α → α) (s : State α) (h : s.pts = []) :
    step hypot s Event.rightClick = some s := by
  simp [step, h]

/-- Right click with a control point, when the recompute succeeds (at least two
control points, or a positive quality): the last control point is removed, the others
and the quality are kept. -/
theorem step_rightClick_cons (hypot : α → α → α) (s : State α) (hne : s.pts ≠ [])
    (h : 2 ≤ s.pts.length ∨ 0 < s.quality) :
    ∃ s1, step hypot s Event.rightClick = some s1 ∧ s1.pts = s.pts.dropLast ∧
      s1.quality = s.quality := by
  have hpos : 0 < s.pts.length := List.length_pos.mpr hne
  obtain ⟨s1, hs1⟩ := recompute_isSome hypot
    { s with pts := s.pts.dropLast, pts_vbo := s.pts.dropLast }
    (by simp only [List.length_dropLast]; omega)
  obtain ⟨_, _, hp, hq, _⟩ := recompute_eq_some hypot _ s1 hs1
  exact ⟨s1, by simp [step, hpos, hs1], hp, hq⟩

end EditorLemmas

section EditorClaims

variable {α : Type} [LinearOrderedField α]

/-- C8: in every state reached from the startup state by a sequence of events, the
stored curve `bez` is `calc_bez` of the current quality and control points. -/
theorem curve_is_tessellation (hypot : α → α → α) (evs : List Event) (s : State α)
    (h : run hypot init evs = some s) : calc_bez s.quality s.pts = some s.bez := by
  refine run_invariant hypot (fun s => calc_bez s.quality s.pts = some s.bez) ?_
    evs init s ?_ h
  · intro s e s1 hs he
    cases e with
    | leftClick x y =>
      obtain ⟨hb, _, hp, hq, _⟩ := recompute_eq_some hypot _ s1 he
      rw [hp, hq]; exact hb
    | rightClick =>
      by_cases hpos : s.pts.length > 0
      · simp only [step, hpos, if_true] at he
        obtain ⟨hb, _, hp, hq, _⟩ := recompute_eq_some hypot _ s1 he
        rw [hp, hq]; exact hb
      · simp only [step, hpos, if_false, Option.some.injEq] at he
        exact he ▸ hs
    | keyLeft =>
      obtain ⟨hb, _, hp, hq, _⟩ := recompute_eq_some hypot _ s1 he
      rw [hp, hq]; exact hb
    | keyRight =>
      obtain ⟨hb, _, hp, hq, _⟩ := recompute_eq_some hypot _ s1 he
      rw [hp, hq]; exact hb
    | other =>
      simp only [step, Option.some.injEq] at he
      exact he ▸ hs
  · simp [init, calc_bez, calc_bez_loop]

/-- C9 (as amended): in every state reached from the startup state by a sequence of
events, either the stored table `dst` is `calc_dst` of the stored curve, or the state
is still the startup state (no recompute has run), where curve and table are empty. -/
theorem table_is_distance (hypot : α → α → α) (evs : List Event) (s : State α)
    (h : run hypot init evs = some s) : calc_dst hypot s.bez = some s.dst ∨ s = init := by
  refine run_invariant hypot (fun s => calc_dst hypot s.bez = some s.dst ∨ s = init) ?_
    evs init s (Or.inr rfl) h
  intro s e s1 hs he
  cases e with
  | leftClick x y => exact Or.inl (recompute_eq_some hypot _ s1 he).2.1
  | rightClick =>
    by_cases hpos : s.pts.length > 0
    · simp only [step, hpos, if_true] at he
      exact Or.inl (recompute_eq_some hypot _ s1 he).2.1
    · simp only [step, hpos, if_false, Option.some.injEq] at he
      exact he ▸ hs
  | keyLeft => exact Or.inl (recompute_eq_some hypot _ s1 he).2.1
  | keyRight => exact Or.inl (recompute_eq_some hypot _ s1 he).2.1
  | other =>
    simp only [step, Option.some.injEq] at he
    exact he ▸ hs

end EditorClaims

section EditorWitnesses

/-- Witness of C8: after two left clicks and three left-arrow keys the editor holds
the control points `(0,0), (4,0)`, quality `1` and the curve that `calc_bez` gives. -/
theorem curve_is_tessellation_witness :
    run (fun a b : ℝ => Real.sqrt (a ^ 2 + b ^ 2)) init
        [Event.leftClick 0 0, Event.leftClick 4 0, Event.keyLeft, Event.keyLeft,
          Event.keyLeft] =
        some { pts := [⟨⟨0, 0⟩, (47, 7, 102, 1)⟩, ⟨⟨4, 0⟩, (47, 7, 102, 1)⟩],
               bez := [⟨⟨0, 0⟩, (255, 0, 0, 1)⟩, ⟨⟨4, 0⟩, (255, 0, 0, 1)⟩],
               dst := [0, 4], quality := 1,
               pts_vbo := [⟨⟨0, 0⟩, (47, 7, 102, 1)⟩, ⟨⟨4, 0⟩, (47, 7, 102, 1)⟩],
               bez_vbo := [⟨⟨0, 0⟩, (255, 0, 0, 1)⟩, ⟨⟨4, 0⟩, (255, 0, 0, 1)⟩],
               dst_vbo := [0, 4] } ∧
      calc_bez (1 : Int)
          ([⟨⟨0, 0⟩, (47, 7, 102, 1)⟩, ⟨⟨4, 0⟩, (47, 7, 102, 1)⟩] : List (vertex ℝ)) =
        some [⟨⟨0, 0⟩, (255, 0, 0, 1)⟩, ⟨⟨4, 0⟩, (255, 0, 0, 1)⟩] := by
  have h : run (fun a b : ℝ => Real.sqrt (a ^ 2 + b ^ 2)) init
      [Event.leftClick 0 0, Event.leftClick 4 0, Event.keyLeft, Event.keyLeft,
        Event.keyLeft] =
        some { pts := [⟨⟨0, 0⟩, (47, 7, 102, 1)⟩, ⟨⟨4, 0⟩, (47, 7, 102, 1)⟩],
               bez := [⟨⟨0, 0⟩, (255, 0, 0, 1)⟩, ⟨⟨4, 0⟩, (255, 0, 0, 1)⟩],
               dst := [0, 4], quality := 1,
               pts_vbo := [⟨⟨0, 0⟩, (47, 7, 102, 1)⟩, ⟨⟨4, 0⟩, (47, 7, 102, 1)⟩],
               bez_vbo := [⟨⟨0, 0⟩, (255, 0, 0, 1)⟩, ⟨⟨4, 0⟩, (255, 0, 0, 1)⟩],
               dst_vbo := [0, 4] } := by
    simp [run, step, recompute, calc_bez, calc_bez_loop, calc_bez_body, bezier,
      bezier_outer, bezier_inner, calc_dst, calc_dst_body, init, List.range_succ,
      List.range']
  exact ⟨h, curve_is_tessellation _ _ _ h⟩

/-- Counterexample to C9: the startup state is reached by the empty sequence of
events (and kept by a right click), and there the stored table is empty while
`calc_dst` of the stored (empty) curve is the one-entry table `[0]`. -/
theorem table_is_distance_counterexample :
    run (fun a b : ℝ => Real.sqrt (a ^ 2 + b ^ 2)) init [] = some init ∧
      run (fun a b : ℝ => Real.sqrt (a ^ 2 + b ^ 2)) init [Event.rightClick] = some init ∧
      calc_dst (fun a b : ℝ => Real.sqrt (a ^ 2 + b ^ 2)) (init : State ℝ).bez = some [0] ∧
      (init : State ℝ).dst = [] ∧
      calc_dst (fun a b : ℝ => Real.sqrt (a ^ 2 + b ^ 2)) (init : State ℝ).bez ≠ some (init : State ℝ).dst := by
  refine ⟨rfl, rfl, rfl, rfl, ?_⟩
  simp [calc_dst, init]

/-- Witness of C9 (as amended): after a left click at `(3, 4)` and a left-arrow key
the stored table `[0]` is `calc_dst` of the stored one-sample curve. -/
theorem table_is_distance_witness :
    run (fun a b : ℝ => Real.sqrt (a ^ 2 + b ^ 2)) init [Event.leftClick 3 4, Event.keyLeft] =
        some { pts := [⟨⟨3, 4⟩, (47, 7, 102, 1)⟩], bez := [⟨⟨3, 4⟩, (255, 0, 0, 1)⟩],
               dst := [0], quality := 3, pts_vbo := [⟨⟨3, 4⟩, (47, 7, 102, 1)⟩],
               bez_vbo := [⟨⟨3, 4⟩, (255, 0, 0, 1)⟩], dst_vbo := [0] } ∧
      (calc_dst (fun a b : ℝ => Real.sqrt (a ^ 2 + b ^ 2))
          ([⟨⟨3, 4⟩, (255, 0, 0, 1)⟩] : List (vertex ℝ)) = some [0] ∨
        ({ pts := [⟨⟨3, 4⟩, (47, 7, 102, 1)⟩], bez := [⟨⟨3, 4⟩, (255, 0, 0, 1)⟩],
           dst := [0], quality := 3, pts_vbo := [⟨⟨3, 4⟩, (47, 7, 102, 1)⟩],
           bez_vbo := [⟨⟨3, 4⟩, (255, 0, 0, 1)⟩], dst_vbo := [0] } : State ℝ) = init) := by
  have h : run (fun a b : ℝ => Real.sqrt (a ^ 2 + b ^ 2)) init [Event.leftClick 3 4, Event.keyLeft] =
        some { pts := [⟨⟨3, 4⟩, (47, 7, 102, 1)⟩], bez := [⟨⟨3, 4⟩, (255, 0, 0, 1)⟩],
               dst := [0], quality := 3, pts_vbo := [⟨⟨3, 4⟩, (47, 7, 102, 1)⟩],
               bez_vbo := [⟨⟨3, 4⟩, (255, 0, 0, 1)⟩], dst_vbo := [0] } := by
    simp [run, step, recompute, calc_bez, calc_bez_loop, calc_bez_body, bezier, calc_dst,
      init, List.range_succ]
  exact ⟨h, table_is_distance _ _ _ h⟩

/-- C10, the failing input: a left click at `(3, 4)` and four left-arrow keys lead to
one control point with quality `0`; the right click then removes the point and the
recompute evaluates `bezier` on the empty sequence, reading `points[0]` out of
bounds, so the handler has no result. -/
theorem rightClick_last_point_quality_zero :
    run (fun a b : ℝ => Real.sqrt (a ^ 2 + b ^ 2)) init
        [Event.leftClick 3 4, Event.keyLeft, Event.keyLeft, Event.keyLeft, Event.keyLeft] =
        some { pts := [⟨⟨3, 4⟩, (47, 7, 102, 1)⟩], bez := [⟨⟨3, 4⟩, (255, 0, 0, 1)⟩],
               dst := [0], quality := 0, pts_vbo := [⟨⟨3, 4⟩, (47, 7, 102, 1)⟩],
               bez_vbo := [⟨⟨3, 4⟩, (255, 0, 0, 1)⟩], dst_vbo := [0] } ∧
      step (fun a b : ℝ => Real.sqrt (a ^ 2 + b ^ 2))
        { pts := [⟨⟨3, 4⟩, (47, 7, 102, 1)⟩], bez := [⟨⟨3, 4⟩, (255, 0, 0, 1)⟩],
          dst := [0], quality := 0, pts_vbo := [⟨⟨3, 4⟩, (47, 7, 102, 1)⟩],
          bez_vbo := [⟨⟨3, 4⟩, (255, 0, 0, 1)⟩], dst_vbo := [0] }
        Event.rightClick = none := by
  constructor
  · simp [run, step, recompute, calc_bez, calc_bez_loop, calc_bez_body, bezier, calc_dst,
      init, List.range_succ]
  · simp [step, recompute, calc_bez_nil_zero]

end EditorWitnesses

section EditorLemmas2

variable {α : Type} [LinearOrderedField α]

/-- Right-arrow key: when `quality + 1` is positive or there is a control point, the
handler succeeds, adds one to `quality` and keeps the control points. -/
theorem step_keyRight (hypot : α → α → α) (s : State α)
    (h : 1 ≤ s.pts.length ∨ 0 ≤ s.quality) :
    ∃ s1, step hypot s Event.keyRight = some s1 ∧ s1.quality = s.quality + 1 ∧
      s1.pts = s.pts := by
  obtain ⟨s1, hs1⟩ := recompute_isSome hypot { s with quality := s.quality + 1 }
    (by rcases h with h | h
        · exact Or.inl h
        · right; show 0 < s.quality + 1; omega)
  obtain ⟨_, _, hp, hq, _⟩ := recompute_eq_some hypot _ s1 hs1
  exact ⟨s1, by simp [step, hs1], hq, hp⟩

/-- Left-arrow key: when there is a control point, or `quality` is at least `2`, the
handler succeeds, sets `quality` to `max 0 (quality - 1)` and keeps the control
points. -/
theorem step_keyLeft (hypot : α → α → α) (s : State α)
    (h : 1 ≤ s.pts.length ∨ 2 ≤ s.quality) :
    ∃ s1, step hypot s Event.keyLeft = some s1 ∧ s1.quality = max 0 (s.quality - 1) ∧
      s1.pts = s.pts := by
  obtain ⟨s1, hs1⟩ := recompute_isSome hypot { s with quality := max 0 (s.quality - 1) }
    (by rcases h with h | h
        · exact Or.inl h
        · right; show 0 < max 0 (s.quality - 1); omega)
  obtain ⟨_, _, hp, hq, _⟩ := recompute_eq_some hypot _ s1 hs1
  exact ⟨s1, by simp [step, hs1], hq, hp⟩

/-- In every state reached from the startup state, `quality` is not negative, and
there is a control point or `quality` is positive (the recompute that would lead to no
control point with quality `0` has no result). -/
theorem run_quality (hypot : α → α → α) (evs : List Event) (s : State α)
    (h : run hypot init evs = some s) :
    0 ≤ s.quality ∧ (1 ≤ s.pts.length ∨ 0 < s.quality) := by
  refine run_invariant hypot
    (fun s => 0 ≤ s.quality ∧ (1 ≤ s.pts.length ∨ 0 < s.quality)) ?_ evs init s ?_ h
  · intro s e s1 hs he
    have key : ∀ s0 : State α, recompute hypot s0 = some s1 → 0 ≤ s0.quality →
        0 ≤ s1.quality ∧ (1 ≤ s1.pts.length ∨ 0 < s1.quality) := by
      intro s0 h0 hq0
      obtain ⟨hb, _, hp, hq, _⟩ := recompute_eq_some hypot s0 s1 h0
      rw [hp, hq]
      refine ⟨hq0, ?_⟩
      by_contra hcon
      have hlen : s0.pts = [] := List.length_eq_zero.mp (by omega)
      have hqz : s0.quality = 0 := by omega
      rw [hlen, hqz, calc_bez_nil_zero] at hb
      exact Option.noConfusion hb
    cases e with
    | leftClick x y => exact key _ he hs.1
    | rightClick =>
      by_cases hpos : s.pts.length > 0
      · simp only [step, hpos, if_true] at he
        exact key _ he hs.1
      · simp only [step, hpos, if_false, Option.some.injEq] at he
        exact he ▸ hs
    | keyLeft => exact key _ he (le_max_left 0 _)
    | keyRight => exact key _ he (by show 0 ≤ s.quality + 1; omega)
    | other =>
      simp only [step, Option.some.injEq] at he
      exact he ▸ hs
  · exact ⟨by simp [init], Or.inr (by simp [init])⟩

end EditorLemmas2

section EditorClaims2

variable {α : Type} [LinearOrderedField α]

/-- C11: a left click at `(x, y)` succeeds in every state; the new control points are
the old ones followed by the point `(x, y)`, and `quality` is unchanged. -/
theorem step_leftClick (hypot : α → α → α) (s : State α) (x y : Int) :
    ∃ s1, step hypot s (Event.leftClick x y) = some s1 ∧
      s1.pts = s.pts ++ [⟨⟨(x : α), (y : α)⟩, (47, 7, 102, 1)⟩] ∧
      s1.quality = s.quality := by
  obtain ⟨s1, hs1⟩ := recompute_isSome hypot
    { s with pts := s.pts ++ [⟨⟨(x : α), (y : α)⟩, (47, 7, 102, 1)⟩],
             pts_vbo := s.pts ++ [⟨⟨(x : α), (y : α)⟩, (47, 7, 102, 1)⟩] }
    (Or.inl (by simp))
  obtain ⟨_, _, hp, hq, _⟩ := recompute_eq_some hypot _ s1 hs1
  exact ⟨s1, by simp [step, hs1], hp, hq⟩

/-- C12: in every state reached from the startup state by a sequence of events,
`quality ≥ 0`; and when `quality = 0` there, the left-arrow key succeeds and leaves
`quality` at `0`. -/
theorem quality_nonneg (hypot : α → α → α) (evs : List Event) (s : State α)
    (h : run hypot init evs = some s) :
    0 ≤ s.quality ∧
      (s.quality = 0 → ∃ s1, step hypot s Event.keyLeft = some s1 ∧ s1.quality = 0) := by
  obtain ⟨hq, hk⟩ := run_quality hypot evs s h
  refine ⟨hq, fun h0 => ?_⟩
  obtain ⟨s1, hs1, hq1, _⟩ := step_keyLeft hypot s (by omega)
  exact ⟨s1, hs1, by rw [hq1, h0]; rfl⟩

end EditorClaims2

section RecomputeLemmas

variable {α : Type} [LinearOrderedField α]

/-- A fold in `Option` whose body is the body of a fold in `Except` with the error
dropped is that fold with the error dropped. -/
theorem foldlM_toOption {β γ ε : Type} (f : β → γ → Option β) (g : β → γ → Except ε β)
    (hfg : ∀ b c, f b c = (g b c).toOption) :
    ∀ (l : List γ) (b : β), l.foldlM f b = (l.foldlM g b).toOption := by
  intro l
  induction l with
  | nil => intro b; rfl
  | cons c l ih =>
    intro b
    rw [List.foldlM_cons, List.foldlM_cons, hfg b c]
    cases g b c with
    | error e => rfl
    | ok b1 => exact ih b1

/-- The body of the loop of `calc_bez` divides `1` by `cnt` itself, with the float
division: it is the body `calc_bez_body_div` at `float_div`. -/
theorem calc_bez_body_eq_div (cnt : Int) (pts : List (vertex α))
    (st : List (vertex α) × α) (i : Nat) :
    calc_bez_body cnt pts st i = (calc_bez_body_div float_div cnt pts st i).toOption := by
  unfold calc_bez_body calc_bez_body_div float_div
  cases bezier pts st.2 <;> rfl

/-- The loop of `calc_bez` is the loop `calc_bez_loop_div` at `float_div`. -/
theorem calc_bez_loop_eq_div (quality : Int) (pts : List (vertex α)) :
    calc_bez_loop quality pts = (calc_bez_loop_div float_div quality pts).toOption :=
  foldlM_toOption _ _ (calc_bez_body_eq_div _ pts) _ _

/-- With a non-zero `cnt` the checked division in the body never reports. -/
theorem calc_bez_body_div_checked (cnt : Int) (hcnt : cnt ≠ 0) (pts : List (vertex α)) :
    calc_bez_body_div (checked_div : α → α → Except Fault α) cnt pts =
      calc_bez_body_div float_div cnt pts := by
  have hc : (cnt : α) ≠ 0 := Int.cast_ne_zero.mpr hcnt
  funext st i
  simp [calc_bez_body_div, checked_div, float_div, hc]

/-- Degenerate inputs: with `quality ≥ 0` and `n < 2` or `cnt = 0`, `calc_bez` returns
a curve of at most one sample, provided there is a control point or `quality` is
positive. -/
theorem calc_bez_degenerate (quality : Int) (pts : List (vertex α)) (hq : 0 ≤ quality)
    (hdeg : pts.length < 2 ∨ ((pts.length : Int) - 1) * quality = 0)
    (hdef : 1 ≤ pts.length ∨ 0 < quality) :
    ∃ bez, calc_bez quality pts = some bez ∧ bez.length ≤ 1 := by
  by_cases hn : 1 ≤ pts.length
  · have hcnt : ((pts.length : Int) - 1) * quality = 0 := by
      rcases hdeg with h | h
      · have : pts.length = 1 := by omega
        simp [this]
      · exact h
    obtain ⟨bez, hfold, hlen, _⟩ :=
      calc_bez_fold (((pts.length : Int) - 1) * quality) pts hn
        ((((pts.length : Int) - 1) * quality + 1).toNat)
    refine ⟨bez, by simp [calc_bez, calc_bez_loop, hfold], ?_⟩
    rw [hlen, hcnt]
    simp
  · have h0 : pts.length = 0 := by omega
    have hq0 : 0 < quality := by omega
    have hN : (((pts.length : Int) - 1) * quality + 1).toNat = 0 := by
      rw [h0]; simp; omega
    exact ⟨[], by simp [calc_bez, calc_bez_loop, hN], by simp⟩

end RecomputeLemmas

section RecomputeClaims

variable {α : Type} [LinearOrderedField α]

/-- C15 (as amended): `calc_bez` has no guard on `cnt`: its loop is the loop that
divides `1` by `cnt = (n - 1) * quality` itself in every executed iteration. When it
returns (there is a control point, or `quality` is positive): if `cnt ≠ 0` no
iteration divides by zero (the loop with the checked division gives the same result);
if `cnt = 0` the loop runs once and that iteration divides by zero (the loop with the
checked division reports it, while the loop of `calc_bez` returns its one sample). -/
theorem calc_bez_division (quality : Int) (pts : List (vertex α))
    (h : 1 ≤ pts.length ∨ 0 < quality) :
    calc_bez_loop quality pts = (calc_bez_loop_div float_div quality pts).toOption ∧
      (((pts.length : Int) - 1) * quality ≠ 0 →
        ∃ r, calc_bez_loop quality pts = some r ∧
          calc_bez_loop_div checked_div quality pts = Except.ok r) ∧
      (((pts.length : Int) - 1) * quality = 0 →
        ∃ r, calc_bez_loop quality pts = some r ∧ r.1.length = 1 ∧
          calc_bez_loop_div checked_div quality pts =
            Except.error Fault.division_by_zero) := by
  have hlink : calc_bez_loop quality pts =
      (calc_bez_loop_div float_div quality pts).toOption :=
    foldlM_toOption _ _
      (fun st i => by
        unfold calc_bez_body calc_bez_body_div float_div
        cases bezier pts st.2 <;> rfl) _ _
  refine ⟨hlink, ?_, ?_⟩
  · intro hcnt
    obtain ⟨bez, hb⟩ := calc_bez_isSome quality pts h
    cases hr : calc_bez_loop quality pts with
    | none => simp [calc_bez, hr] at hb
    | some r =>
      refine ⟨r, rfl, ?_⟩
      have hl := hlink
      rw [hr] at hl
      have hck : calc_bez_loop_div (checked_div : α → α → Except Fault α) quality pts =
          calc_bez_loop_div float_div quality pts := by
        simp only [calc_bez_loop_div, calc_bez_body_div_checked _ hcnt]
      rw [hck]
      cases hf : calc_bez_loop_div (float_div : α → α → Except Fault α) quality pts with
      | error e => rw [hf] at hl; exact Option.noConfusion hl
      | ok r1 =>
        rw [hf] at hl
        have : r = r1 := Option.some.inj hl
        rw [this]
  · intro hcnt
    have hn : 1 ≤ pts.length := by
      rcases h with h | h
      · exact h
      · by_contra hlt
        have h0 : pts.length = 0 := by omega
        rw [h0] at hcnt
        simp at hcnt
        omega
    obtain ⟨bez, hfold, hlen, _⟩ :=
      calc_bez_fold (((pts.length : Int) - 1) * quality) pts hn
        ((((pts.length : Int) - 1) * quality + 1).toNat)
    have hN : (((pts.length : Int) - 1) * quality + 1).toNat = 1 := by rw [hcnt]; rfl
    refine ⟨_, hfold, by rw [hlen, hN], ?_⟩
    obtain ⟨p, hp⟩ := bezier_isSome pts (0 : α) hn
    simp only [calc_bez_loop_div, hN, hcnt]
    simp [List.range_succ, calc_bez_body_div, hp, checked_div]

end RecomputeClaims

section RecomputeWitnesses

/-- C14, the failing input: with no control point and quality `0`, `cnt = 0`, the loop
of `calc_bez` runs once and `bezier` reads `points[0]` of an empty array, so `calc_bez`
returns no curve at all (neither zero nor one point). -/
theorem calc_bez_no_points_quality_zero :
    calc_bez (0 : Int) ([] : List (vertex ℚ)) = none ∧
      bezier ([] : List (vertex ℚ)) 0 = none :=
  ⟨calc_bez_nil_zero, rfl⟩

/-- Counterexample to C15: with one control point and quality `4`, `cnt = 0`; the loop
of `calc_bez` is the loop that divides `1` by `cnt`, it returns its one sample, and
its one step computation divides by `0`. -/
theorem calc_bez_division_counterexample :
    calc_bez_loop (4 : Int) ([⟨⟨3, 4⟩, (47, 7, 102, 1)⟩] : List (vertex ℚ)) =
        (calc_bez_loop_div float_div (4 : Int)
          ([⟨⟨3, 4⟩, (47, 7, 102, 1)⟩] : List (vertex ℚ))).toOption ∧
      calc_bez (4 : Int) ([⟨⟨3, 4⟩, (47, 7, 102, 1)⟩] : List (vertex ℚ)) =
        some [⟨⟨3, 4⟩, (255, 0, 0, 1)⟩] ∧
      calc_bez_loop_div checked_div (4 : Int)
          ([⟨⟨3, 4⟩, (47, 7, 102, 1)⟩] : List (vertex ℚ)) =
        Except.error Fault.division_by_zero := by
  refine ⟨?_, ?_, ?_⟩
  · simp [calc_bez_loop, calc_bez_body, calc_bez_loop_div, calc_bez_body_div, float_div,
      bezier, List.range_succ, Except.toOption]
  · simp [calc_bez, calc_bez_loop, calc_bez_body, bezier, List.range_succ]
  · simp [calc_bez_loop_div, calc_bez_body_div, checked_div, bezier, List.range_succ]

/-- Witness of C15 (as amended): with the three sample control points and quality `2`,
`cnt = 4`, and the loop with the checked division returns what the loop of `calc_bez`
returns: none of its five step computations divides by zero. -/
theorem calc_bez_division_witness :
    (1 ≤ samplePts.length ∨ (0 : Int) < 2) ∧
      ((samplePts.length : Int) - 1) * 2 ≠ 0 ∧
      ∃ r, calc_bez_loop 2 samplePts = some r ∧
        calc_bez_loop_div checked_div 2 samplePts = Except.ok r :=
  ⟨Or.inl (by decide), by decide,
    (calc_bez_division 2 samplePts (Or.inl (by decide))).2.1 (by decide)⟩

end RecomputeWitnesses

section BufferClaims

variable {α : Type} [LinearOrderedField α]

/-- C19: in every state reached from the startup state by a sequence of events, the
three device buffers hold the contents of their host vectors: `pts_vbo = pts`,
`bez_vbo = bez` and `dst_vbo = dst`. -/
theorem buffers_mirror (hypot : α → α → α) (evs : List Event) (s : State α)
    (h : run hypot init evs = some s) :
    s.pts_vbo = s.pts ∧ s.bez_vbo = s.bez ∧ s.dst_vbo = s.dst := by
  refine run_invariant hypot
    (fun s => s.pts_vbo = s.pts ∧ s.bez_vbo = s.bez ∧ s.dst_vbo = s.dst) ?_ evs init s
    ⟨rfl, rfl, rfl⟩ h
  intro s e s1 hs he
  have key : ∀ s0 : State α, recompute hypot s0 = some s1 → s0.pts_vbo = s0.pts →
      s1.pts_vbo = s1.pts ∧ s1.bez_vbo = s1.bez ∧ s1.dst_vbo = s1.dst := by
    intro s0 h0 hp0
    obtain ⟨_, _, hp, _, hpv, hbv, hdv⟩ := recompute_eq_some hypot s0 s1 h0
    exact ⟨by rw [hpv, hp, hp0], hbv, hdv⟩
  cases e with
  | leftClick x y => exact key _ he rfl
  | rightClick =>
    by_cases hpos : s.pts.length > 0
    · simp only [step, hpos, if_true] at he
      exact key _ he rfl
    · simp only [step, hpos, if_false, Option.some.injEq] at he
      exact he ▸ hs
  | keyLeft => exact key _ he hs.1
  | keyRight => exact key _ he hs.1
  | other =>
    simp only [step, Option.some.injEq] at he
    exact he ▸ hs

end BufferClaims

section EditorWitnesses2

/-- Witness of C12: a left click and four left-arrow keys lead to quality `0`, and a
fifth left-arrow key leaves it at `0`. -/
theorem quality_nonneg_witness :
    run (fun a b : ℝ => Real.sqrt (a ^ 2 + b ^ 2)) init
        [Event.leftClick 3 4, Event.keyLeft, Event.keyLeft, Event.keyLeft, Event.keyLeft] =
        some { pts := [⟨⟨3, 4⟩, (47, 7, 102, 1)⟩], bez := [⟨⟨3, 4⟩, (255, 0, 0, 1)⟩],
               dst := [0], quality := 0, pts_vbo := [⟨⟨3, 4⟩, (47, 7, 102, 1)⟩],
               bez_vbo := [⟨⟨3, 4⟩, (255, 0, 0, 1)⟩], dst_vbo := [0] } ∧
      ∃ s1, step (fun a b : ℝ => Real.sqrt (a ^ 2 + b ^ 2))
          { pts := [⟨⟨3, 4⟩, (47, 7, 102, 1)⟩], bez := [⟨⟨3, 4⟩, (255, 0, 0, 1)⟩],
            dst := [0], quality := 0, pts_vbo := [⟨⟨3, 4⟩, (47, 7, 102, 1)⟩],
            bez_vbo := [⟨⟨3, 4⟩, (255, 0, 0, 1)⟩], dst_vbo := [0] }
          Event.keyLeft = some s1 ∧ s1.quality = 0 := by
  have h : run (fun a b : ℝ => Real.sqrt (a ^ 2 + b ^ 2)) init
      [Event.leftClick 3 4, Event.keyLeft, Event.keyLeft, Event.keyLeft, Event.keyLeft] =
        some { pts := [⟨⟨3, 4⟩, (47, 7, 102, 1)⟩], bez := [⟨⟨3, 4⟩, (255, 0, 0, 1)⟩],
               dst := [0], quality := 0, pts_vbo := [⟨⟨3, 4⟩, (47, 7, 102, 1)⟩],
               bez_vbo := [⟨⟨3, 4⟩, (255, 0, 0, 1)⟩], dst_vbo := [0] } := by
    simp [run, step, recompute, calc_bez, calc_bez_loop, calc_bez_body, bezier, calc_dst,
      init, List.range_succ]
  exact ⟨h, (quality_nonneg _ _ _ h).2 rfl⟩

/-- C13, the failing input: three left-arrow keys after startup lead to no control
point with quality `1`; the fourth sets `quality` to `0` and the recompute evaluates
`bezier` on the empty sequence, reading `points[0]` out of bounds, so the handler has
no result. -/
theorem keyLeft_no_points_quality_one :
    run (fun a b : ℝ => Real.sqrt (a ^ 2 + b ^ 2)) init [Event.keyLeft, Event.keyLeft, Event.keyLeft] =
        some { pts := [], bez := [], dst := [0], quality := 1, pts_vbo := [],
               bez_vbo := [], dst_vbo := [0] } ∧
      step (fun a b : ℝ => Real.sqrt (a ^ 2 + b ^ 2))
        { pts := [], bez := [], dst := [0], quality := 1, pts_vbo := [],
          bez_vbo := [], dst_vbo := [0] }
        Event.keyLeft = none := by
  constructor
  · simp [run, step, recompute, calc_bez, calc_bez_loop, calc_dst, init]
  · simp [step, recompute, calc_bez_nil_zero]

/-- Witness of C19: after two left clicks, a right click and a right-arrow key the
editor holds one control point with quality `5`, and the three buffers hold the host
vectors. -/
theorem buffers_mirror_witness :
    ∃ s, run (fun a b : ℝ => Real.sqrt (a ^ 2 + b ^ 2)) init
        [Event.leftClick 0 0, Event.leftClick 3 4, Event.rightClick, Event.keyRight] =
          some s ∧
      s.pts = [⟨⟨0, 0⟩, (47, 7, 102, 1)⟩] ∧ s.quality = 5 ∧
      s.pts_vbo = s.pts ∧ s.bez_vbo = s.bez ∧ s.dst_vbo = s.dst := by
  have h : run (fun a b : ℝ => Real.sqrt (a ^ 2 + b ^ 2)) init
      [Event.leftClick 0 0, Event.leftClick 3 4, Event.rightClick, Event.keyRight] =
        some { pts := [⟨⟨0, 0⟩, (47, 7, 102, 1)⟩], bez := [⟨⟨0, 0⟩, (255, 0, 0, 1)⟩],
               dst := [0], quality := 5, pts_vbo := [⟨⟨0, 0⟩, (47, 7, 102, 1)⟩],
               bez_vbo := [⟨⟨0, 0⟩, (255, 0, 0, 1)⟩], dst_vbo := [0] } := by
    simp [run, step, recompute, calc_bez, calc_bez_loop, calc_bez_body, bezier,
      bezier_outer, bezier_inner, calc_dst, calc_dst_body, init, List.range_succ,
      List.range']
  exact ⟨_, h, rfl, rfl, buffers_mirror _ _ _ h⟩

end EditorWitnesses2

section InterpolateLemmas

variable {α : Type} [LinearOrderedField α]

/-- Interpolating two values shifted by the same amount shifts the interpolated value. -/
theorem interpolate_add (lam a b c : α) :
    interpolate lam (a + c) (b + c) = interpolate lam a b + c := by
  unfold interpolate; ring

theorem interpolate_self (lam a : α) : interpolate lam a a = a := by
  unfold interpolate; ring

end InterpolateLemmas

section ShaderLemmas

variable {α : Type} [LinearOrderedField α] [FloorRing α]

theorem glsl_mod_nonneg (x : α) : 0 ≤ glsl_mod x 40 := by
  have h := Int.floor_le (x / 40)
  rw [le_div_iff₀ (by norm_num : (0 : α) < 40)] at h
  unfold glsl_mod
  linarith

theorem glsl_mod_lt (x : α) : glsl_mod x 40 < 40 := by
  have h := Int.lt_floor_add_one (x / 40)
  rw [div_lt_iff₀ (by norm_num : (0 : α) < 40)] at h
  unfold glsl_mod
  linarith

/-- When `x = r + 40 * q` with `0 ≤ r < 40` and `q` an integer, `mod(x, 40) = r`. -/
theorem glsl_mod_eq (x r : α) (q : Int) (h0 : 0 ≤ r) (h1 : r < 40)
    (hx : x = r + 40 * (q : α)) : glsl_mod x 40 = r := by
  have hf : ⌊x / 40⌋ = q := by
    rw [Int.floor_eq_iff, le_div_iff₀ (by norm_num : (0 : α) < 40),
      div_lt_iff₀ (by norm_num : (0 : α) < 40)]
    constructor <;> linarith
  unfold glsl_mod
  rw [hf, hx]
  ring

theorem glsl_mod_add_period (x : α) : glsl_mod (x + 40) 40 = glsl_mod x 40 := by
  refine glsl_mod_eq (x + 40) (glsl_mod x 40) (⌊x / 40⌋ + 1) (glsl_mod_nonneg x)
    (glsl_mod_lt x) ?_
  unfold glsl_mod
  push_cast
  ring

theorem glsl_mod_add_half_of_lt (x : α) (h : glsl_mod x 40 < 20) :
    glsl_mod (x + 20) 40 = glsl_mod x 40 + 20 := by
  refine glsl_mod_eq (x + 20) (glsl_mod x 40 + 20) ⌊x / 40⌋ ?_ ?_ ?_
  · have := glsl_mod_nonneg x; linarith
  · linarith
  · unfold glsl_mod; ring

theorem glsl_mod_add_half_of_ge (x : α) (h : 20 ≤ glsl_mod x 40) :
    glsl_mod (x + 20) 40 = glsl_mod x 40 - 20 := by
  refine glsl_mod_eq (x + 20) (glsl_mod x 40 - 20) (⌊x / 40⌋ + 1) ?_ ?_ ?_
  · linarith
  · have := glsl_mod_lt x; linarith
  · unfold glsl_mod; push_cast; ring

end ShaderLemmas

section ShaderClaims

variable {α : Type} [LinearOrderedField α] [FloorRing α]

/-- C16: for a fragment of the curve (`is_bez > 0`) between two vertices with arc
lengths `d0` and `d1`, at weight `lam` and any `time`, with `s` the interpolated arc
length and `phase = mod(time * 100, 40)`: the fragment is kept exactly when
`mod(s + phase, 40) ≥ 20` and discarded exactly when `mod(s + phase, 40) < 20`. -/
theorem dash_visible_iff (is_bez time lam d0 d1 : α) (hb : 0 < is_bez) :
    (fragment_shader_discard
        (interpolate lam (vertex_shader_bez is_bez) (vertex_shader_bez is_bez))
        (interpolate lam (vertex_shader_dist d0 time) (vertex_shader_dist d1 time)) = false ↔
      20 ≤ glsl_mod (interpolate lam d0 d1 + glsl_mod (time * 100) 40) 40) ∧
    (fragment_shader_discard
        (interpolate lam (vertex_shader_bez is_bez) (vertex_shader_bez is_bez))
        (interpolate lam (vertex_shader_dist d0 time) (vertex_shader_dist d1 time)) = true ↔
      glsl_mod (interpolate lam d0 d1 + glsl_mod (time * 100) 40) 40 < 20) := by
  simp only [vertex_shader_dist, vertex_shader_bez, interpolate_add, interpolate_self,
    fragment_shader_discard, decide_eq_false_iff_not, decide_eq_true_eq, gt_iff_lt, hb,
    true_and, not_lt, and_self]

/-- C17 (as amended): a fragment of the curve with arc length `5` at phase `0` is
discarded (hidden), since `mod(5 + 0, 40) = 5 < 20`. -/
theorem dash_hidden_at_five (is_bez time : α) (hb : 0 < is_bez)
    (hphase : glsl_mod (time * 100) 40 = 0) :
    fragment_shader_discard (vertex_shader_bez is_bez) (vertex_shader_dist 5 time) = true := by
  have h5 : glsl_mod (5 : α) 40 = 5 :=
    glsl_mod_eq 5 5 0 (by norm_num) (by norm_num) (by simp)
  simp only [vertex_shader_dist, vertex_shader_bez, hphase, add_zero, h5,
    fragment_shader_discard, decide_eq_true_eq]
  exact ⟨hb, by norm_num⟩

/-- C18: for the curve (`bez > 0`), every arc length `s` and phase `p`: the discard
decision at `s + 40` is the one at `s`, and the decision at `s + 20` is its negation. -/
theorem dash_period (bez s p : α) (hb : 0 < bez) :
    fragment_shader_discard bez (s + 40 + p) = fragment_shader_discard bez (s + p) ∧
      fragment_shader_discard bez (s + 20 + p) = !fragment_shader_discard bez (s + p) := by
  have e40 : s + 40 + p = (s + p) + 40 := by ring
  have e20 : s + 20 + p = (s + p) + 20 := by ring
  refine ⟨by rw [e40]; simp only [fragment_shader_discard, glsl_mod_add_period], ?_⟩
  rw [e20]
  by_cases h : glsl_mod (s + p) 40 < 20
  · have h2 : ¬ glsl_mod (s + p + 20) 40 < 20 := by
      rw [glsl_mod_add_half_of_lt _ h]
      have := glsl_mod_nonneg (s + p)
      linarith
    simp [fragment_shader_discard, h, h2, hb]
  · have h2 : glsl_mod (s + p + 20) 40 < 20 := by
      rw [glsl_mod_add_half_of_ge _ (not_lt.mp h)]
      have := glsl_mod_lt (s + p)
      linarith
    simp [fragment_shader_discard, h, h2, hb]

end ShaderClaims

section ShaderWitnesses

/-- Witness of C16: at `time = 0` the fragment half way between the arc lengths `0` and
`50` has `s = 25`, `mod(25 + 0, 40) = 25 ≥ 20`, and is kept. -/
theorem dash_visible_iff_witness :
    (0 : ℚ) < 1 ∧
      fragment_shader_discard
        (interpolate (1 / 2) (vertex_shader_bez (1 : ℚ)) (vertex_shader_bez 1))
        (interpolate (1 / 2) (vertex_shader_dist 0 0) (vertex_shader_dist 50 0)) = false := by
  refine ⟨by norm_num, (dash_visible_iff 1 0 (1 / 2) 0 50 (by norm_num)).1.mpr ?_⟩
  have hphase : glsl_mod ((0 : ℚ) * 100) 40 = 0 :=
    glsl_mod_eq _ 0 0 (by norm_num) (by norm_num) (by norm_num)
  have hs : interpolate (1 / 2 : ℚ) 0 50 = 25 := by norm_num [interpolate]
  have h25 : glsl_mod (25 : ℚ) 40 = 25 :=
    glsl_mod_eq 25 25 0 (by norm_num) (by norm_num) (by norm_num)
  rw [hphase, hs, add_zero, h25]
  norm_num

/-- Counterexample to C17: at `time = 0` the phase is `0`, and the fragment shader
discards the curve fragment with arc length `5`: it is hidden, not visible. -/
theorem dash_hidden_at_five_counterexample :
    glsl_mod ((0 : ℚ) * 100) 40 = 0 ∧
      fragment_shader_discard (vertex_shader_bez (1 : ℚ)) (vertex_shader_dist 5 0) = true := by
  have hphase : glsl_mod ((0 : ℚ) * 100) 40 = 0 :=
    glsl_mod_eq _ 0 0 (by norm_num) (by norm_num) (by norm_num)
  have h5 : glsl_mod (5 : ℚ) 40 = 5 :=
    glsl_mod_eq 5 5 0 (by norm_num) (by norm_num) (by norm_num)
  refine ⟨hphase, ?_⟩
  simp only [vertex_shader_dist, vertex_shader_bez, hphase, add_zero, h5,
    fragment_shader_discard, decide_eq_true_eq]
  norm_num

/-- Witness of C17 (as amended): at `time = 2/5` the phase is `mod(40, 40) = 0` and the
curve fragment with arc length `5` is discarded. -/
theorem dash_hidden_at_five_witness :
    (0 : ℚ) < 1 ∧ glsl_mod ((2 / 5 : ℚ) * 100) 40 = 0 ∧
      fragment_shader_discard (vertex_shader_bez (1 : ℚ)) (vertex_shader_dist 5 (2 / 5)) =
        true := by
  have hphase : glsl_mod ((2 / 5 : ℚ) * 100) 40 = 0 :=
    glsl_mod_eq _ 0 1 (by norm_num) (by norm_num) (by norm_num)
  exact ⟨by norm_num, hphase, dash_hidden_at_five 1 (2 / 5) (by norm_num) hphase⟩

/-- Witness of C18: with `bez = 1` and phase `0`, the decision at arc length `45` is the
one at `5`, and the decision at `25` is its negation. -/
theorem dash_period_witness :
    (0 : ℚ) < 1 ∧
      fragment_shader_discard (1 : ℚ) (5 + 40 + 0) =
        fragment_shader_discard (1 : ℚ) (5 + 0) ∧
      fragment_shader_discard (1 : ℚ) (5 + 20 + 0) =
        !fragment_shader_discard (1 : ℚ) (5 + 0) :=
  ⟨by norm_num, dash_period (1 : ℚ) 5 0 (by norm_num)⟩

end ShaderWitnesses

section BuildClaims

/-- C20: `create_shader` returns the handle when the compile status is `GL_TRUE` and
otherwise fails with the message `Shader compilation failed: ` followed by the info
log; `create_program` returns the handle when the link status is `GL_TRUE` and
otherwise fails with `Program linkage failed: ` followed by the link log; each fails
exactly when its status is not `GL_TRUE`. -/
theorem create_shader_program_result (result : Nat) (status : Int) (info_log : String) :
    (status = GL_TRUE → create_shader result status info_log = Except.ok result) ∧
    (status ≠ GL_TRUE → create_shader result status info_log =
      Except.error ("Shader compilation failed: " ++ info_log)) ∧
    ((∃ msg, create_shader result status info_log = Except.error msg) ↔ status ≠ GL_TRUE) ∧
    (status = GL_TRUE → create_program result status info_log = Except.ok result) ∧
    (status ≠ GL_TRUE → create_program result status info_log =
      Except.error ("Program linkage failed: " ++ info_log)) ∧
    ((∃ msg, create_program result status info_log = Except.error msg) ↔
      status ≠ GL_TRUE) := by
  by_cases h : status = GL_TRUE
  · simp [create_shader, create_program, h]
  · simp [create_shader, create_program, h]

/-- Witness of C20: with status `0` (`GL_FALSE`) and the log `syntax error` both
functions fail with the prefixed log; with status `1` both return the handle `7`. -/
theorem create_shader_program_result_witness :
    create_shader 7 0 ("syntax error") =
        Except.error ("Shader compilation failed: syntax error") ∧
      create_program 7 0 ("syntax error") =
        Except.error ("Program linkage failed: syntax error") ∧
      create_shader 7 1 ("") = Except.ok 7 ∧ create_program 7 1 ("") = Except.ok 7 := by
  have h := create_shader_program_result 7 0 ("syntax error")
  have h1 := create_shader_program_result 7 1 ("")
  exact ⟨h.2.1 (by decide), h.2.2.2.2.1 (by decide), h1.1 rfl, h1.2.2.2.1 rfl⟩

end BuildClaims

section StartupClaims

/-- When every startup step succeeds, `main` reaches the frame loop with the program. -/
theorem main_frame_loop (d : Startup) (h1 : d.sdl_init = 0) (h2 : d.window = true)
    (h3 : d.gl_context = true) (h4 : d.glew_init = GLEW_NO_ERROR)
    (h5 : d.glew_version_3_3 = true) (h6 : d.vertex_status = GL_TRUE)
    (h7 : d.fragment_status = GL_TRUE) (h8 : d.program_status = GL_TRUE) :
    main d = Outcome.frame_loop d.program := by
  simp [main, main_startup, create_shader, create_program, h1, h2, h3, h4, h5, h6, h7, h8]
  rfl

/-- C21: when a startup step fails (`SDL_Init`, the window, the context, `glewInit`,
the OpenGL 3.3 check, the compilation of a shader or the linking of the program),
`main` writes the message of the thrown exception to the error stream and returns
`EXIT_FAILURE`, which is not zero, without reaching the frame loop. -/
theorem main_startup_failure (d : Startup)
    (h : d.sdl_init ≠ 0 ∨ d.window = false ∨ d.gl_context = false ∨
      d.glew_init ≠ GLEW_NO_ERROR ∨ d.glew_version_3_3 = false ∨
      d.vertex_status ≠ GL_TRUE ∨ d.fragment_status ≠ GL_TRUE ∨
      d.program_status ≠ GL_TRUE) :
    ∃ what, main_startup d = Except.error what ∧
      main d = Outcome.failure what EXIT_FAILURE ∧ EXIT_FAILURE ≠ 0 ∧
      ∀ program, main d ≠ Outcome.frame_loop program := by
  have key : ∃ what, main_startup d = Except.error what := by
    by_cases h1 : d.sdl_init = 0
    · by_cases h2 : d.window = true
      · by_cases h3 : d.gl_context = true
        · by_cases h4 : d.glew_init = GLEW_NO_ERROR
          · by_cases h5 : d.glew_version_3_3 = true
            · by_cases h6 : d.vertex_status = GL_TRUE
              · by_cases h7 : d.fragment_status = GL_TRUE
                · by_cases h8 : d.program_status = GL_TRUE
                  · simp [h1, h2, h3, h4, h5, h6, h7, h8] at h
                  · exact ⟨_, by
                      simp [main_startup, create_shader, create_program, h1, h2, h3, h4,
                        h5, h6, h7, h8]
                      rfl⟩
                · exact ⟨_, by
                    simp [main_startup, create_shader, h1, h2, h3, h4, h5, h6, h7]
                    rfl⟩
              · exact ⟨_, by
                  simp [main_startup, create_shader, h1, h2, h3, h4, h5, h6]
                  rfl⟩
            · exact ⟨_, by
                simp [main_startup, h1, h2, h3, h4, h5]
                rfl⟩
          · exact ⟨_, by
              simp [main_startup, glew_fail, h1, h2, h3, h4]
              rfl⟩
        · exact ⟨_, by
            simp [main_startup, sdl2_fail, h1, h2, h3]
            rfl⟩
      · exact ⟨_, by
          simp [main_startup, sdl2_fail, h1, h2]
          rfl⟩
    · exact ⟨_, by
        simp [main_startup, sdl2_fail, h1]
        rfl⟩
  obtain ⟨what, hw⟩ := key
  refine ⟨what, hw, by simp [main, hw], by decide, ?_⟩
  intro program
  simp [main, hw]

end StartupClaims

section FrameClaims

variable {α : Type} [LinearOrderedField α]

/-- C22: whatever the OpenGL state at the start of a frame, the frame issues exactly
four draws, in this order: the triangle (3 vertices, `trg_vao`), the control points as
a line strip and then as points (both `pts.size()` vertices, `pts_vao`), and the curve
as a line strip (`bez.size()` vertices, `bez_vao`) with `is_bez` set to `1`; for the
first three `is_bez` is `-1`. -/
theorem draw_frame_order (g : GLState α) (h : Handles) (width height : Int) (time : α)
    (s : State α) :
    draws h.is_bez_location g (draw_frame h width height time s) =
      [⟨Mode.GL_TRIANGLES, 3, h.trg_vao, some (-1)⟩,
       ⟨Mode.GL_LINE_STRIP, s.pts.length, h.pts_vao, some (-1)⟩,
       ⟨Mode.GL_POINTS, s.pts.length, h.pts_vao, some (-1)⟩,
       ⟨Mode.GL_LINE_STRIP, s.bez.length, h.bez_vao, some 1⟩] := by
  simp [draw_frame, draws, exec]

/-- C30: for a window of non-zero width and height, the vertex shader with the `view`
matrix of the frame maps the pixel position `(x, y)` to
`(2x/width - 1, 1 - 2y/height, 0, 1)`; the pixel `(0, 0)` goes to `(-1, 1)` and the
pixel `(width, height)` to `(1, -1)`. -/
theorem view_maps_pixels (width height : Int) (hw : width ≠ 0) (hh : height ≠ 0) :
    (∀ p : vec2 α,
      vertex_shader_position (mat4_row_major (view width height)) p =
        ![2 * p.x / (width : α) - 1, 1 - 2 * p.y / (height : α), 0, 1]) ∧
    vertex_shader_position (mat4_row_major (view width height : List α)) ⟨0, 0⟩ =
      ![-1, 1, 0, 1] ∧
    vertex_shader_position (mat4_row_major (view width height : List α))
      ⟨(width : α), (height : α)⟩ = ![1, -1, 0, 1] := by
  have hw1 : (width : α) ≠ 0 := Int.cast_ne_zero.mpr hw
  have hh1 : (height : α) ≠ 0 := Int.cast_ne_zero.mpr hh
  have gen : ∀ p : vec2 α,
      vertex_shader_position (mat4_row_major (view width height)) p =
        ![2 * p.x / (width : α) - 1, 1 - 2 * p.y / (height : α), 0, 1] := by
    intro p
    have v3 : ((3 : Fin 4) : Nat) = 3 := rfl
    funext i
    fin_cases i
    · simp [vertex_shader_position, mat4_mul_vec4, mat4_row_major, view, v3]; ring
    · simp [vertex_shader_position, mat4_mul_vec4, mat4_row_major, view, v3]; ring
    · simp [vertex_shader_position, mat4_mul_vec4, mat4_row_major, view, v3]
    · simp [vertex_shader_position, mat4_mul_vec4, mat4_row_major, view, v3]
  refine ⟨gen, ?_, ?_⟩
  · rw [gen]
    funext i
    fin_cases i <;> simp
  · rw [gen]
    funext i
    fin_cases i
    · simp; field_simp; ring
    · simp; field_simp; ring
    · simp
    · simp

end FrameClaims

section FrameWitnesses

/-- Witness of C30: in the 800 by 600 window the pixel `(400, 150)` goes to `(0, 1/2)`. -/
theorem view_maps_pixels_witness :
    (800 : Int) ≠ 0 ∧ (600 : Int) ≠ 0 ∧
      vertex_shader_position (mat4_row_major (view 800 600 : List ℚ)) ⟨400, 150⟩ =
        ![0, 1 / 2, 0, 1] := by
  refine ⟨by decide, by decide, ?_⟩
  rw [(view_maps_pixels 800 600 (by decide) (by decide)).1]
  norm_num

/-- Witness of C21: when `SDL_Init` answers `-1`, `main` writes `SDL_Init: ` followed
by the SDL error text and returns `EXIT_FAILURE`. -/
theorem main_startup_failure_witness :
    ∃ what, main_startup
        { sdl_init := -1, sdl_init_error := "no video device", window := true,
          window_error := "", gl_context := true, gl_context_error := "", glew_init := 0,
          glew_error := "", glew_version_3_3 := true, vertex_shader := 1,
          vertex_status := 1, vertex_log := "", fragment_shader := 2,
          fragment_status := 1, fragment_log := "", program := 3, program_status := 1,
          program_log := "" } = Except.error what ∧
      what = "SDL_Init: no video device" ∧
      main
        { sdl_init := -1, sdl_init_error := "no video device", window := true,
          window_error := "", gl_context := true, gl_context_error := "", glew_init := 0,
          glew_error := "", glew_version_3_3 := true, vertex_shader := 1,
          vertex_status := 1, vertex_log := "", fragment_shader := 2,
          fragment_status := 1, fragment_log := "", program := 3, program_status := 1,
          program_log := "" } = Outcome.failure what EXIT_FAILURE := by
  obtain ⟨what, hw, hm, _, _⟩ := main_startup_failure
    { sdl_init := -1, sdl_init_error := "no video device", window := true,
      window_error := "", gl_context := true, gl_context_error := "", glew_init := 0,
      glew_error := "", glew_version_3_3 := true, vertex_shader := 1,
      vertex_status := 1, vertex_log := "", fragment_shader := 2,
      fragment_status := 1, fragment_log := "", program := 3, program_status := 1,
      program_log := "" } (Or.inl (by decide))
  refine ⟨what, hw, ?_, hm⟩
  have e : main_startup
      { sdl_init := -1, sdl_init_error := "no video device", window := true,
        window_error := "", gl_context := true, gl_context_error := "", glew_init := 0,
        glew_error := "", glew_version_3_3 := true, vertex_shader := 1,
        vertex_status := 1, vertex_log := "", fragment_shader := 2,
        fragment_status := 1, fragment_log := "", program := 3, program_status := 1,
        program_log := "" } = Except.error ("SDL_Init: no video device") := by
    rfl
  rw [e] at hw
  injection hw with hw
  exact hw.symm

end FrameWitnesses

section BernsteinLemmas

variable {α : Type} [LinearOrderedField α]

/-- The De Casteljau recursion on one coordinate is the Bernstein sum. -/
theorem dcFun_eq_sum (t : α) (f : Nat → α) :
    ∀ k j, dcFun t f k j = Finset.sum (Finset.range (k + 1)) (fun i =>
      (Nat.choose k i : α) * (1 - t) ^ (k - i) * t ^ i * f (j + i)) := by
  intro k
  induction k with
  | zero => intro j; simp [dcFun]
  | succ k ih =>
    intro j
    rw [dcFun, ih j, ih (j + 1)]
    -- right-hand side: peel the first term
    rw [Finset.sum_range_succ' (fun i =>
      (Nat.choose (k + 1) i : α) * (1 - t) ^ (k + 1 - i) * t ^ i * f (j + i)) (k + 1)]
    have hsplit : Finset.sum (Finset.range (k + 1)) (fun i =>
        (Nat.choose (k + 1) (i + 1) : α) * (1 - t) ^ (k + 1 - (i + 1)) * t ^ (i + 1) *
          f (j + (i + 1))) =
        Finset.sum (Finset.range (k + 1)) (fun i =>
          (Nat.choose k i : α) * (1 - t) ^ (k - i) * t ^ i * f (j + 1 + i)) * t +
        Finset.sum (Finset.range (k + 1)) (fun i =>
          (Nat.choose k (i + 1) : α) * (1 - t) ^ (k - i) * t ^ (i + 1) * f (j + (i + 1))) := by
      rw [Finset.sum_mul, ← Finset.sum_add_distrib]
      refine Finset.sum_congr rfl (fun i _ => ?_)
      rw [Nat.choose_succ_succ, Nat.succ_sub_succ, Nat.cast_add,
        show j + 1 + i = j + (i + 1) by omega]
      ring
    have hleft : Finset.sum (Finset.range (k + 1)) (fun i =>
        (Nat.choose k i : α) * (1 - t) ^ (k - i) * t ^ i * f (j + i)) * (1 - t) =
        Finset.sum (Finset.range (k + 1)) (fun i =>
          (Nat.choose k (i + 1) : α) * (1 - t) ^ (k - i) * t ^ (i + 1) * f (j + (i + 1))) +
        (1 - t) ^ (k + 1) * f j := by
      rw [Finset.sum_range_succ' (fun i =>
        (Nat.choose k i : α) * (1 - t) ^ (k - i) * t ^ i * f (j + i)) k]
      rw [Finset.sum_range_succ (fun i =>
        (Nat.choose k (i + 1) : α) * (1 - t) ^ (k - i) * t ^ (i + 1) * f (j + (i + 1))) k]
      rw [Nat.choose_succ_self, add_mul, Finset.sum_mul]
      have hc : Finset.sum (Finset.range k) (fun i =>
          (Nat.choose k (i + 1) : α) * (1 - t) ^ (k - (i + 1)) * t ^ (i + 1) *
            f (j + (i + 1)) * (1 - t)) =
          Finset.sum (Finset.range k) (fun i =>
            (Nat.choose k (i + 1) : α) * (1 - t) ^ (k - i) * t ^ (i + 1) *
              f (j + (i + 1))) := by
        refine Finset.sum_congr rfl (fun i hi => ?_)
        have hik : i < k := Finset.mem_range.mp hi
        have e : k - i = (k - (i + 1)) + 1 := by omega
        rw [e, pow_succ]
        ring
      rw [hc]
      simp
      ring
    rw [hsplit, hleft]
    simp
    ring

/-- Row `k`, column `j` of the De Casteljau triangle, coordinate by coordinate. -/
theorem dcPoint_eq_dcFun (t : α) (P : List (vec2 α)) :
    ∀ k j, j + k < P.length →
      dcPoint t P k j =
        some ⟨dcFun t (fun i => (P.getD i ⟨0, 0⟩).x) k j,
              dcFun t (fun i => (P.getD i ⟨0, 0⟩).y) k j⟩ := by
  intro k
  induction k with
  | zero =>
    intro j hj
    have hj0 : j < P.length := by omega
    simp [dcPoint, dcFun, List.getElem?_eq_getElem hj0, List.getD_eq_getElem _ _ hj0]
  | succ k ih =>
    intro j hj
    simp [dcPoint, dcFun, ih j (by omega), ih (j + 1) (by omega), lerp]

/-- The convex combinations of the recursion stay between bounds of the coefficients. -/
theorem dcFun_bounds (t lo hi : α) (h0 : 0 ≤ t) (h1 : t ≤ 1) (f : Nat → α) (n : Nat)
    (hf : ∀ i, i < n → lo ≤ f i ∧ f i ≤ hi) :
    ∀ k j, j + k < n → lo ≤ dcFun t f k j ∧ dcFun t f k j ≤ hi := by
  intro k
  induction k with
  | zero => intro j hj; exact hf j (by omega)
  | succ k ih =>
    intro j hj
    obtain ⟨ha1, ha2⟩ := ih j (by omega)
    obtain ⟨hb1, hb2⟩ := ih (j + 1) (by omega)
    have ht : 0 ≤ 1 - t := sub_nonneg.mpr h1
    simp only [dcFun]
    constructor
    · nlinarith [mul_le_mul_of_nonneg_right ha1 ht, mul_le_mul_of_nonneg_right hb1 h0]
    · nlinarith [mul_le_mul_of_nonneg_right ha2 ht, mul_le_mul_of_nonneg_right hb2 h0]

/-- The two coordinates of the result of `bezier` as De Casteljau recursions. -/
theorem bezier_eq_dcFun (vertices : List (vertex α)) (t : α) (hne : vertices ≠ []) :
    bezier vertices t =
      some ⟨dcFun t (fun i => ((vertices.map (fun v : vertex α => v.position)).getD i (⟨0, 0⟩ : vec2 α)).x)
              (vertices.length - 1) 0,
            dcFun t (fun i => ((vertices.map (fun v : vertex α => v.position)).getD i (⟨0, 0⟩ : vec2 α)).y)
              (vertices.length - 1) 0⟩ := by
  have hpos : 0 < vertices.length := List.length_pos.mpr hne
  rw [bezier_eq_dcPoint, dcPoint_eq_dcFun _ _ _ 0 (by simp; omega)]

/-- Reversing the control points mirrors the De Casteljau triangle and swaps the
weights `t` and `1 - t`. -/
theorem dcPoint_reverse (t : α) (P : List (vec2 α)) :
    ∀ k j, j + k < P.length →
      dcPoint t P.reverse k j = dcPoint (1 - t) P k (P.length - 1 - k - j) := by
  intro k
  induction k with
  | zero =>
    intro j hj
    simp only [dcPoint, Nat.sub_zero]
    exact List.getElem?_reverse (by omega)
  | succ k ih =>
    intro j hj
    obtain ⟨a, ha⟩ := dcPoint_isSome (1 - t) P k (P.length - 1 - (k + 1) - j) (by omega)
    obtain ⟨b, hb⟩ := dcPoint_isSome (1 - t) P k (P.length - 1 - (k + 1) - j + 1) (by omega)
    have e1 : P.length - 1 - k - j = P.length - 1 - (k + 1) - j + 1 := by omega
    have e2 : P.length - 1 - k - (j + 1) = P.length - 1 - (k + 1) - j := by omega
    simp only [dcPoint, ih j (by omega), ih (j + 1) (by omega), e1, e2, ha, hb, lerp]
    congr 2 <;> ring

end BernsteinLemmas

section BernsteinClaims

variable {α : Type} [LinearOrderedField α]

/-- C23: for a non-empty control-point sequence `P_0, ..., P_(n-1)` and every `t`, the
in-place loops of `bezier` return the point of the Bezier curve in Bernstein form: in
each coordinate the sum over `i` of `C(n-1, i) * (1-t)^(n-1-i) * t^i * P_i`. -/
theorem bezier_bernstein (vertices : List (vertex α)) (t : α) (hne : vertices ≠ []) :
    bezier vertices t =
      some ⟨bernstein t (vertices.map (fun v => v.position.x)),
            bernstein t (vertices.map (fun v => v.position.y))⟩ := by
  have hpos : 0 < vertices.length := List.length_pos.mpr hne
  have hn : vertices.length - 1 + 1 = vertices.length := by omega
  rw [bezier_eq_dcFun vertices t hne, dcFun_eq_sum, dcFun_eq_sum]
  simp only [bernstein, List.length_map, hn, Nat.zero_add]
  congr 2
  · refine Finset.sum_congr rfl (fun i hi => ?_)
    have hi1 : i < vertices.length := Finset.mem_range.mp hi
    rw [List.getD_eq_getElem _ _ (by simpa using hi1),
      List.getD_eq_getElem _ _ (by simpa using hi1)]
    simp
  · refine Finset.sum_congr rfl (fun i hi => ?_)
    have hi1 : i < vertices.length := Finset.mem_range.mp hi
    rw [List.getD_eq_getElem _ _ (by simpa using hi1),
      List.getD_eq_getElem _ _ (by simpa using hi1)]
    simp

/-- C25: for a non-empty control-point sequence and `0 ≤ t ≤ 1`, each coordinate of
the result of `bezier` lies between the minimum and the maximum of that coordinate
over the control points. -/
theorem bezier_in_bounding_box (vertices : List (vertex α)) (t : α) (hne : vertices ≠ [])
    (h0 : 0 ≤ t) (h1 : t ≤ 1) :
    ∃ p, bezier vertices t = some p ∧
      (vertices.map (fun v => v.position.x)).minimum ≤ (p.x : WithTop α) ∧
      (p.x : WithBot α) ≤ (vertices.map (fun v => v.position.x)).maximum ∧
      (vertices.map (fun v => v.position.y)).minimum ≤ (p.y : WithTop α) ∧
      (p.y : WithBot α) ≤ (vertices.map (fun v => v.position.y)).maximum := by
  have hpos : 0 < vertices.length := List.length_pos.mpr hne
  have key : ∀ g : vec2 α → α,
      (vertices.map (fun v => g v.position)).minimum ≤
          ((dcFun t (fun i => g ((vertices.map (fun v : vertex α => v.position)).getD i (⟨0, 0⟩ : vec2 α)))
            (vertices.length - 1) 0 : α) : WithTop α) ∧
        ((dcFun t (fun i => g ((vertices.map (fun v : vertex α => v.position)).getD i (⟨0, 0⟩ : vec2 α)))
            (vertices.length - 1) 0 : α) : WithBot α) ≤
          (vertices.map (fun v => g v.position)).maximum := by
    intro g
    have hne1 : vertices.map (fun v => g v.position) ≠ [] := by simpa using hne
    obtain ⟨lo, hlo⟩ := WithTop.ne_top_iff_exists.mp (List.minimum_ne_top_of_ne_nil hne1)
    obtain ⟨hi, hhi⟩ := WithBot.ne_bot_iff_exists.mp (List.maximum_ne_bot_of_ne_nil hne1)
    have hf : ∀ i, i < vertices.length →
        lo ≤ g ((vertices.map (fun v : vertex α => v.position)).getD i (⟨0, 0⟩ : vec2 α)) ∧
          g ((vertices.map (fun v : vertex α => v.position)).getD i (⟨0, 0⟩ : vec2 α)) ≤ hi := by
      intro i hi1
      have hmem : g ((vertices.map (fun v : vertex α => v.position)).getD i (⟨0, 0⟩ : vec2 α)) ∈
          vertices.map (fun v => g v.position) := by
        rw [List.getD_eq_getElem _ _ (by simpa using hi1)]
        simp only [List.getElem_map, List.mem_map]
        exact ⟨vertices[i], List.getElem_mem hi1, rfl⟩
      exact ⟨List.minimum_le_of_mem hmem hlo.symm, List.le_maximum_of_mem hmem hhi.symm⟩
    obtain ⟨b1, b2⟩ := dcFun_bounds t lo hi h0 h1 _ vertices.length hf
      (vertices.length - 1) 0 (by omega)
    rw [← hlo, ← hhi]
    exact ⟨WithTop.coe_le_coe.mpr b1, WithBot.coe_le_coe.mpr b2⟩
  refine ⟨_, bezier_eq_dcFun vertices t hne, (key (fun p => p.x)).1, (key (fun p => p.x)).2,
    (key (fun p => p.y)).1, (key (fun p => p.y)).2⟩

/-- C26: for a non-empty control-point sequence and every `t`, `bezier` returns a
point on the reversed sequence at `t` and on the sequence itself at `1 - t`, and the
two points are equal. -/
theorem bezier_reverse (vertices : List (vertex α)) (t : α) (hne : vertices ≠ []) :
    ∃ p, bezier vertices (1 - t) = some p ∧ bezier vertices.reverse t = some p := by
  have hpos : 0 < vertices.length := List.length_pos.mpr hne
  obtain ⟨p, hp⟩ := bezier_isSome vertices (1 - t) (by omega)
  refine ⟨p, hp, ?_⟩
  rw [← hp, bezier_eq_dcPoint, bezier_eq_dcPoint, List.length_reverse, List.map_reverse,
    dcPoint_reverse _ _ _ 0 (by simp; omega)]
  simp

end BernsteinClaims

section BernsteinWitnesses

/-- Witness of C23: for the control points `(0,0), (10,0), (10,10)` at `t = 1/2` the
Bernstein sums are `15/2` and `5/2`, and `bezier` returns that point. -/
theorem bezier_bernstein_witness :
    samplePts ≠ [] ∧ bezier samplePts (1 / 2) = some ⟨15 / 2, 5 / 2⟩ := by
  refine ⟨by decide, ?_⟩
  rw [bezier_bernstein samplePts (1 / 2) (by decide)]
  simp only [samplePts, List.map_cons, List.map_nil, bernstein, List.length_cons,
    List.length_nil, Finset.sum_range_succ, Finset.sum_range_zero]
  norm_num [Nat.choose]

/-- Witness of C25: for the control points `(0,0), (10,0), (10,10)` at `t = 1/2` the
point of `bezier` lies in their bounding box. -/
theorem bezier_in_bounding_box_witness :
    samplePts ≠ [] ∧ (0 : ℚ) ≤ 1 / 2 ∧ (1 / 2 : ℚ) ≤ 1 ∧
      ∃ p, bezier samplePts (1 / 2) = some p ∧
        (samplePts.map (fun v => v.position.x)).minimum ≤ (p.x : WithTop ℚ) ∧
        (p.x : WithBot ℚ) ≤ (samplePts.map (fun v => v.position.x)).maximum ∧
        (samplePts.map (fun v => v.position.y)).minimum ≤ (p.y : WithTop ℚ) ∧
        (p.y : WithBot ℚ) ≤ (samplePts.map (fun v => v.position.y)).maximum :=
  ⟨by decide, by norm_num, by norm_num,
    bezier_in_bounding_box samplePts (1 / 2) (by decide) (by norm_num) (by norm_num)⟩

/-- Witness of C26: for the control points `(0,0), (10,0), (10,10)`, the reversed
sequence at `t = 1/4` and the sequence itself at `3/4` give the same point. -/
theorem bezier_reverse_witness :
    samplePts ≠ [] ∧
      ∃ p, bezier samplePts (1 - 1 / 4) = some p ∧
        bezier samplePts.reverse (1 / 4) = some p :=
  ⟨by decide, bezier_reverse samplePts (1 / 4) (by decide)⟩

/-- C24, the failing input: after three left-arrow keys from startup the editor has no
control point and quality `1`; the fourth left-arrow key calls `calc_bez` with no
control point and quality `0`, where `cnt = 0`, the loop runs once, and its one
iteration evaluates `bezier` on the empty sequence, whose read of `points[0]` is out
of bounds. -/
theorem calc_bez_evaluates_bezier_on_empty :
    run (fun a b : ℝ => Real.sqrt (a ^ 2 + b ^ 2)) init
        [Event.keyLeft, Event.keyLeft, Event.keyLeft, Event.keyLeft] = none ∧
      List.range ((((([] : List (vertex ℝ)).length : Int) - 1) * 0 + 1).toNat) = [0] ∧
      calc_bez_body (((([] : List (vertex ℝ)).length : Int) - 1) * 0)
        ([] : List (vertex ℝ)) ([], 0) 0 = none ∧
      bezier ([] : List (vertex ℝ)) 0 = none := by
  refine ⟨?_, by simp [List.range_succ], rfl, rfl⟩
  simp [run, step, recompute, calc_bez, calc_bez_loop, calc_bez_body, bezier, calc_dst,
    init, List.range_succ]

end BernsteinWitnesses

end Practice3

namespace Practice4

section MatrixLemmas

variable {α : Type} [LinearOrderedField α]

/-- The loop of `operator*` computes the sum over `k` of `A[i][k] * m1[k][j]`. -/
theorem matr.mul_apply (A m1 : matr α) (i j : Fin 4) :
    matr.mul A m1 i j = Finset.sum Finset.univ (fun k => A i k * m1 k j) := by
  have hr : List.finRange 4 = [0, 1, 2, 3] := rfl
  simp [matr.mul, hr, Fin.sum_univ_four]

/-- The operator `operator*` is the product of `Matrix`. -/
theorem matr.mul_eq_matrix_mul (A m1 : matr α) :
    Matrix.of (matr.mul A m1) = Matrix.of A * Matrix.of m1 := by
  ext i j
  rw [Matrix.mul_apply]
  exact matr.mul_apply A m1 i j

/-- The result of `Identity()` is the unit matrix. -/
theorem matr.Identity_eq_one :
    Matrix.of (matr.Identity : matr α) = (1 : Matrix (Fin 4) (Fin 4) α) := by
  ext i j
  fin_cases i <;> fin_cases j <;> rfl

end MatrixLemmas

section MatrixClaims

variable {α : Type} [LinearOrderedField α]

/-- C29: `operator*` of `mth::matr` is the 4x4 matrix product (entry `(i, j)` is the
sum over `k` of `A[i][k] * B[k][j]`), `Identity()` is a two-sided identity for it, and
it is associative. -/
theorem matr_mul_laws (A B C M : matr α) :
    (∀ i j, matr.mul A B i j = Finset.sum Finset.univ (fun k => A i k * B k j)) ∧
      matr.mul matr.Identity M = M ∧ matr.mul M matr.Identity = M ∧
      matr.mul (matr.mul A B) C = matr.mul A (matr.mul B C) := by
  refine ⟨matr.mul_apply A B, ?_, ?_, ?_⟩
  · apply Matrix.of.injective
    rw [matr.mul_eq_matrix_mul, matr.Identity_eq_one, Matrix.one_mul]
  · apply Matrix.of.injective
    rw [matr.mul_eq_matrix_mul, matr.Identity_eq_one, Matrix.mul_one]
  · apply Matrix.of.injective
    rw [matr.mul_eq_matrix_mul, matr.mul_eq_matrix_mul, matr.mul_eq_matrix_mul,
      matr.mul_eq_matrix_mul, Matrix.mul_assoc]

/-- The matrix of `Frustum` and the array `projection` of practice5 agree in every
entry except the last one, where `Frustum` has `1` and `projection` has `0`. -/
theorem Frustum_entries (right top near far : α) :
    (∀ i j : Fin 4, (i, j) ≠ (3, 3) →
      matr.Frustum right top near far i j =
        (Practice5.projection right top near far).getD (4 * i.val + j.val) 0) ∧
      matr.Frustum right top near far 3 3 = 1 ∧
      (Practice5.projection right top near far).getD 15 0 = 0 := by
  refine ⟨?_, rfl, rfl⟩
  intro i j hij
  fin_cases i <;> fin_cases j <;>
    first
    | exact absurd rfl hij
    | rfl
    | simp [matr.Frustum, matr.mk, Practice5.projection]

end MatrixClaims

section MatrixWitnesses

/-- C28, the failing input: for `right = top = near = 1` and `far = 3` the entry
`[3][3]` of `Frustum` is `1`, while the last entry of the `projection` array of
practice5 (and of the matrix of the claim) is `0`; the two arrays differ. -/
theorem Frustum_last_entry :
    matr.Frustum (1 : ℚ) 1 1 3 3 3 = 1 ∧
      (Practice5.projection (1 : ℚ) 1 1 3).getD 15 0 = 0 ∧
      (matr.Frustum (1 : ℚ) 1 1 3).toArray ≠ Practice5.projection (1 : ℚ) 1 1 3 := by
  refine ⟨rfl, rfl, ?_⟩
  intro h
  have h15 := congrArg (fun l => l.getD 15 0) h
  have hr : List.finRange 4 = [0, 1, 2, 3] := rfl
  simp [matr.toArray, matr.Frustum, matr.mk, Practice5.projection, hr] at h15

end MatrixWitnesses

end Practice4

namespace Practice2

section KeyboardLemmas

variable {α : Type} [LinearOrderedField α]

/-- After a key-down event for one of the four arrow keycodes, on a state in which none
of the four looked-up entries of `key_down` is set, the update of a frame changes
neither `x` nor `y`: the handler writes the entry of the keycode, the update reads the
entries of the scancodes. -/
theorem update_after_arrow_keydown (speed dt : α) (s : State α) (sym : Int)
    (hsym : sym = SDLK_LEFT ∨ sym = SDLK_RIGHT ∨ sym = SDLK_UP ∨ sym = SDLK_DOWN)
    (hl : s.key_down SDL_SCANCODE_LEFT = false) (hr : s.key_down SDL_SCANCODE_RIGHT = false)
    (hu : s.key_down SDL_SCANCODE_UP = false) (hd : s.key_down SDL_SCANCODE_DOWN = false) :
    (update speed dt (handle s (Event.SDL_KEYDOWN sym))).x = s.x ∧
      (update speed dt (handle s (Event.SDL_KEYDOWN sym))).y = s.y := by
  have e1 : SDL_SCANCODE_LEFT ≠ sym := by
    rcases hsym with h | h | h | h <;> rw [h] <;> decide
  have e2 : SDL_SCANCODE_RIGHT ≠ sym := by
    rcases hsym with h | h | h | h <;> rw [h] <;> decide
  have e3 : SDL_SCANCODE_UP ≠ sym := by
    rcases hsym with h | h | h | h <;> rw [h] <;> decide
  have e4 : SDL_SCANCODE_DOWN ≠ sym := by
    rcases hsym with h | h | h | h <;> rw [h] <;> decide
  simp [update, handle, e1, e2, e3, e4, hl, hr, hu, hd]

/-- What the update reacts to: a key-down event whose keycode has the value of the
scancode `SDL_SCANCODE_LEFT` makes the update decrease `x` by `speed * dt`. -/
theorem update_after_scancode_keydown (speed dt : α) (s : State α)
    (hr : s.key_down SDL_SCANCODE_RIGHT = false) :
    (update speed dt (handle s (Event.SDL_KEYDOWN SDL_SCANCODE_LEFT))).x =
      s.x - speed * dt := by
  have e : SDL_SCANCODE_RIGHT ≠ SDL_SCANCODE_LEFT := by decide
  simp [update, handle, e, hr]

end KeyboardLemmas

section KeyboardWitnesses

/-- C27, the failing input: from the initial state, after the key-down event of the
left-arrow key (`SDLK_LEFT`), a frame with `speed = 5` and `dt = 1` leaves `x` at `0`,
where the claim has `0 - 5 * 1`; the same for the other three arrow keys. -/
theorem arrow_keydown_no_move :
    (update (5 : ℚ) 1 (handle init (Event.SDL_KEYDOWN SDLK_LEFT))).x = 0 ∧
      (update (5 : ℚ) 1 (handle init (Event.SDL_KEYDOWN SDLK_RIGHT))).x = 0 ∧
      (update (5 : ℚ) 1 (handle init (Event.SDL_KEYDOWN SDLK_UP))).y = 0 ∧
      (update (5 : ℚ) 1 (handle init (Event.SDL_KEYDOWN SDLK_DOWN))).y = 0 ∧
      (0 : ℚ) - 5 * 1 ≠ 0 := by
  refine ⟨?_, ?_, ?_, ?_, by norm_num⟩
  · exact (update_after_arrow_keydown 5 1 init SDLK_LEFT (Or.inl rfl) rfl rfl rfl rfl).1
  · exact (update_after_arrow_keydown 5 1 init SDLK_RIGHT (Or.inr (Or.inl rfl))
      rfl rfl rfl rfl).1
  · exact (update_after_arrow_keydown 5 1 init SDLK_UP (Or.inr (Or.inr (Or.inl rfl)))
      rfl rfl rfl rfl).2
  · exact (update_after_arrow_keydown 5 1 init SDLK_DOWN (Or.inr (Or.inr (Or.inr rfl)))
      rfl rfl rfl rfl).2

end KeyboardWitnesses

end Practice2
